import Mathlib

/- Verification of the core backtracking solver of sudoku_tool.

   The model embeds:
   - `src/core/sudoku.rs`: the `Sudoku` candidate grid (a `BTreeSet<u8>` cell is
     modelled as a sorted `List Nat`), `new`, `set_cell`, `get_solved_value`,
     `check_unit`, `is_solved`;
   - `src/core/solvers/bf_solver.rs`: `SolverStats`, `is_safe`,
     `initialize_from_sudoku` (named `init_from_sudoku` here), the recursive
     solver `solve_recursive_cell_order` (`solveRec` plus a helper `tryLoop`
     for its `for num in 1..=9` loop), the strategies and
     `find_one_solution_strategy`.

   Machine integers (`u8`, `u16`, `usize`) are modelled as `Nat`.  Every digit
   handled by the solver is at most 9, so every bitmask it builds is below
   2^10 < 2^16 and `u16` arithmetic never wraps; the `u16` complement `!bit`
   is modelled exactly as `65535 ^^^ bit`.  Wall-clock time
   (`Instant::elapsed`, stored in `SolverStats.search_duration`) is an
   environment input and is modelled as a `Nat` parameter of the entry points.
   Rust panics on out-of-range indexing of `cell_order` /
   `tree_width_by_level` are modelled by the instrumentation flag
   `SolverState.oob`, which records exactly the panicking conditions. -/

set_option maxHeartbeats 4000000
set_option maxRecDepth 100000
set_option synthInstance.maxHeartbeats 1000000
set_option synthInstance.maxSize 4096

namespace SudokuTool

/-- A cell of the candidate grid: `BTreeSet<u8>` as a sorted list of digits. -/
abbrev SCell := List Nat

/-- `Sudoku` (src/core/sudoku.rs): a 9x9 grid of candidate sets. -/
structure Sudoku where
  grid : List (List SCell)
deriving DecidableEq, Repr

/-- Read one candidate set of the grid (in-range accesses only in the code). -/
def gridGet (g : List (List SCell)) (row col : Nat) : SCell :=
  (g.getD row []).getD col []

/-- Write one candidate set of the grid. -/
def gridSet (g : List (List SCell)) (row col : Nat) (v : SCell) : List (List SCell) :=
  g.set row ((g.getD row []).set col v)

/-- `Sudoku::new`: every cell an empty candidate set. -/
def Sudoku.new : Sudoku := ⟨List.replicate 9 (List.replicate 9 [])⟩

/-- `Sudoku::get_solved_value`: the value of a cell whose set is a singleton. -/
def Sudoku.get_solved_value (s : Sudoku) (row col : Nat) : Option Nat :=
  let set := gridGet s.grid row col
  if set.length = 1 then some (set.headD 0) else none

/-- `Sudoku::set_cell` (validation then overwrite with a singleton set). -/
def Sudoku.set_cell (s : Sudoku) (row col value : Nat) : Except String Sudoku :=
  if 9 ≤ row ∨ 9 ≤ col then Except.error "Invalid cell position"
  else if value < 1 ∨ 9 < value then Except.error "Value must be between 1 and 9"
  else Except.ok ⟨gridSet s.grid row col [value]⟩

/-- The loop body of `Sudoku::check_unit`: `seen` bookkeeping over the cells,
`none` models the early `return false`. -/
def check_unit_go (seen : List Bool) : List SCell → Option (List Bool)
  | [] => some seen
  | cell :: rest =>
    if cell.length ≠ 1 then none
    else
      let num := cell.headD 0
      if seen.getD num false then none
      else check_unit_go (seen.set num true) rest

/-- `Sudoku::check_unit`: each cell solved, no duplicate, all of 1-9 present. -/
def check_unit (unit : List SCell) : Bool :=
  match check_unit_go (List.replicate 10 false) unit with
  | none => false
  | some seen => ((seen.drop 1).take 9).all (fun b => b)

/-- Row `i` of the grid as `rows_iter` yields it. -/
def rowUnit (s : Sudoku) (i : Nat) : List SCell :=
  (List.range 9).map (fun j => gridGet s.grid i j)

/-- Column `j` of the grid as `columns_iter` yields it. -/
def colUnit (s : Sudoku) (j : Nat) : List SCell :=
  (List.range 9).map (fun i => gridGet s.grid i j)

/-- The box with corner `(bi*3, bj*3)` as `subgrid_iter` yields it. -/
def boxUnit (s : Sudoku) (bi bj : Nat) : List SCell :=
  (List.range 3).flatMap (fun x => (List.range 3).map (fun y => gridGet s.grid (bi*3+x) (bj*3+y)))

/-- `Sudoku::is_solved`: every row, column and 3x3 box passes `check_unit`. -/
def Sudoku.is_solved (s : Sudoku) : Bool :=
  ((List.range 9).all (fun i => check_unit (rowUnit s i))) &&
  ((List.range 9).all (fun j => check_unit (colUnit s j))) &&
  ((List.range 3).all (fun bi => (List.range 3).all (fun bj => check_unit (boxUnit s bi bj))))

/-- `SolverStats` (bf_solver.rs): `search_duration : Duration` is wall-clock
time, modelled as a `Nat`; `tree_width_by_level : [usize; 81]` as a list. -/
structure SolverStats where
  solutions_found : Nat
  search_duration : Nat
  max_recursion_depth : Nat
  nodes_explored : Nat
  backtracks : Nat
  leaves : Nat
  tree_width_by_level : List Nat
deriving DecidableEq, Repr

/-- `SolverStats::default`. -/
def SolverStats.default : SolverStats :=
  ⟨0, 0, 0, 0, 0, 0, List.replicate 81 0⟩

/-- `SolverStats::total_nodes_from_tree`. -/
def SolverStats.total_nodes_from_tree (s : SolverStats) : Nat :=
  s.tree_width_by_level.sum

/-- `SolverStats::is_tree_data_consistent`. -/
def SolverStats.is_tree_data_consistent (s : SolverStats) : Bool :=
  s.total_nodes_from_tree == s.nodes_explored

/-- `SolverStats::dead_end_leaves`; `usize::saturating_sub` is `Nat` sub. -/
def SolverStats.dead_end_leaves (s : SolverStats) : Nat :=
  s.leaves - s.solutions_found

/-- The scratch board `[[u8; 9]; 9]`, 0 = empty. -/
abbrev Board := List (List Nat)

/-- `board[i][j]`. -/
def bget (b : Board) (i j : Nat) : Nat := (b.getD i []).getD j 0

/-- `board[i][j] = v`. -/
def bset (b : Board) (i j v : Nat) : Board := b.set i ((b.getD i []).set j v)

/-- `[[0u8; 9]; 9]`. -/
def emptyBoard : Board := List.replicate 9 (List.replicate 9 0)

/-- `is_safe` (bf_solver.rs line 474): the digit's bit is clear in the row,
column and subgrid masks. -/
def is_safe (rows cols subgrids : List Nat) (i j num : Nat) : Bool :=
  let bit := 1 <<< num
  ((rows.getD i 0) &&& bit == 0) && ((cols.getD j 0) &&& bit == 0) &&
    ((subgrids.getD ((i / 3) * 3 + j / 3) 0) &&& bit == 0)

/-- All 81 cells in the row-major order of the `for i { for j { .. } }` loops. -/
def cellsRowMajor : List (Nat × Nat) :=
  (List.range 9).flatMap (fun i => (List.range 9).map (fun j => (i, j)))

/-- The four arrays initialized by `initialize_from_sudoku`. -/
structure InitSt where
  board : Board
  rows : List Nat
  cols : List Nat
  subgrids : List Nat
deriving Repr

/-- One iteration of the `initialize_from_sudoku` loop body. -/
def initStep (sudoku : Sudoku) (st : InitSt) (c : Nat × Nat) : InitSt :=
  match sudoku.get_solved_value c.1 c.2 with
  | some value =>
    let bit := 1 <<< value
    { board := bset st.board c.1 c.2 value,
      rows := st.rows.set c.1 ((st.rows.getD c.1 0) ||| bit),
      cols := st.cols.set c.2 ((st.cols.getD c.2 0) ||| bit),
      subgrids := st.subgrids.set ((c.1 / 3) * 3 + c.2 / 3)
        ((st.subgrids.getD ((c.1 / 3) * 3 + c.2 / 3) 0) ||| bit) }
  | none => st

/-- `initialize_from_sudoku` (bf_solver.rs line 364). -/
def init_from_sudoku (sudoku : Sudoku) : InitSt :=
  cellsRowMajor.foldl (initStep sudoku)
    ⟨emptyBoard, List.replicate 9 0, List.replicate 9 0, List.replicate 9 0⟩

/-- The mutable state threaded through `solve_recursive_cell_order`: the four
arrays, the statistics, the solution vector, plus the instrumentation flag
`oob`, which becomes true exactly when the Rust code would index
`cell_order` or `tree_width_by_level` out of bounds (a panic). -/
structure SolverState where
  board : Board
  rows : List Nat
  cols : List Nat
  subgrids : List Nat
  stats : SolverStats
  solutions : List Sudoku
  oob : Bool
deriving DecidableEq, Repr

/-- The solution copy at bf_solver.rs lines 408-414: start from `Sudoku::new`
and `set_cell` every cell.  The `unwrap` cannot fail when all board values are
1-9 (always the case for a bijective cell order); an `Err` is modelled as
leaving the copy unchanged. -/
def boardToSudoku (b : Board) : Sudoku :=
  cellsRowMajor.foldl
    (fun s c =>
      match s.set_cell c.1 c.2 (bget b c.1 c.2) with
      | Except.ok s2 => s2
      | Except.error _ => s)
    Sudoku.new

/-- The body of the `while current_idx < 81` scan, structurally recursive on
the distance to 81 so that it evaluates by kernel reduction. -/
def findNextEmptyGo (co : List (Nat × Nat)) (b : Board) : Nat → Nat → Nat
  | 0, idx => idx
  | fuel + 1, idx =>
    if idx < 81 then
      let c := co.getD idx (0, 0)
      if bget b c.1 c.2 = 0 then idx else findNextEmptyGo co b fuel (idx + 1)
    else idx

/-- The `while current_idx < 81` scan for the next empty cell
(bf_solver.rs lines 397-404); `81 - idx` steps always suffice. -/
def findNextEmpty (co : List (Nat × Nat)) (b : Board) (idx : Nat) : Nat :=
  findNextEmptyGo co b (81 - idx) idx

/-- Digit placement (bf_solver.rs lines 432-439). -/
def place (i j num : Nat) (s : SolverState) : SolverState :=
  let bit := 1 <<< num
  { s with
    board := bset s.board i j num,
    rows := s.rows.set i ((s.rows.getD i 0) ||| bit),
    cols := s.cols.set j ((s.cols.getD j 0) ||| bit),
    subgrids := s.subgrids.set ((i / 3) * 3 + j / 3)
      ((s.subgrids.getD ((i / 3) * 3 + j / 3) 0) ||| bit) }

/-- Backtracking (bf_solver.rs lines 459-464); the `u16` complement `!bit`
is `65535 ^^^ bit`. -/
def unplace (i j num : Nat) (s : SolverState) : SolverState :=
  let mask := 65535 ^^^ (1 <<< num)
  { s with
    board := bset s.board i j 0,
    rows := s.rows.set i ((s.rows.getD i 0) &&& mask),
    cols := s.cols.set j ((s.cols.getD j 0) &&& mask),
    subgrids := s.subgrids.set ((i / 3) * 3 + j / 3)
      ((s.subgrids.getD ((i / 3) * 3 + j / 3) 0) &&& mask),
    stats := { s.stats with backtracks := s.stats.backtracks + 1 } }

/-- Stats update at a decision node (bf_solver.rs lines 419-424), with the
out-of-bounds instrumentation for the two panicking index sites
(`cell_order[current_idx]` and `tree_width_by_level[depth]`). -/
def recordNode (co : List (Nat × Nat)) (current_idx depth : Nat) (s : SolverState) : SolverState :=
  { s with
    oob := s.oob || decide (81 ≤ current_idx) || decide (co.length ≤ current_idx)
            || decide (81 ≤ depth),
    stats := { s.stats with
      nodes_explored := s.stats.nodes_explored + 1,
      max_recursion_depth := max s.stats.max_recursion_depth depth,
      tree_width_by_level := s.stats.tree_width_by_level.set depth
        ((s.stats.tree_width_by_level.getD depth 0) + 1) } }

/-- Appending a completed board to the solution vector (lines 407-416). -/
def pushSolution (s : SolverState) : SolverState :=
  { s with
    solutions := s.solutions ++ [boardToSudoku s.board],
    stats := { s.stats with leaves := s.stats.leaves + 1 } }

/-- The `for num in 1..=9` loop of `solve_recursive_cell_order`
(bf_solver.rs lines 426-466).  `go` is the recursive call
`solve_recursive_cell_order(..., current_idx + 1, depth + 1, ...)` with its
state argument abstracted; the `Bool` result is `any_valid_moves`; returning
`(s, true)` from the first branch is the single-solution early return. -/
def tryLoop (find_all : Bool) (go : SolverState → SolverState) (i j : Nat) :
    List Nat → SolverState → SolverState × Bool
  | [], s => (s, false)
  | num :: rest, s =>
    if is_safe s.rows s.cols s.subgrids i j num then
      let s2 := go (place i j num s)
      if !s2.solutions.isEmpty && !find_all then (s2, true)
      else ((tryLoop find_all go i j rest (unplace i j num s2)).1, true)
    else tryLoop find_all go i j rest s

/-- `solve_recursive_cell_order` (bf_solver.rs lines 384-472).  `fuel` bounds
the recursion nesting; since `cell_idx` strictly increases along recursive
calls and recursion stops once it reaches 81, a fuel of 82 is never exhausted
from a top-level call (`solveRec_fuel_eq` below makes this precise). -/
def solveRec (co : List (Nat × Nat)) (find_all : Bool) (fuel cell_idx depth : Nat)
    (s : SolverState) : SolverState :=
  match fuel with
  | 0 => s
  | fuel' + 1 =>
    let current_idx := findNextEmpty co s.board cell_idx
    if current_idx = 81 then pushSolution s
    else
      let c := co.getD current_idx (0, 0)
      let s1 := recordNode co current_idx depth s
      let r := tryLoop find_all
        (fun st => solveRec co find_all fuel' (current_idx + 1) (depth + 1) st)
        c.1 c.2 [1, 2, 3, 4, 5, 6, 7, 8, 9] s1
      if r.2 then r.1
      else { r.1 with stats := { r.1.stats with leaves := r.1.stats.leaves + 1 } }

/-- `SearchStrategy` (bf_solver.rs line 200).  The two randomized variants draw
from the process RNG; the outcome of the shuffle is modelled as data carried
by the variant (an environment input). -/
inductive SearchStrategy where
  | Default : SearchStrategy
  | RowColRandom : List Nat → List Nat → SearchStrategy
  | CellRandom : List (Nat × Nat) → SearchStrategy
  | CustomRowCol : List Nat → List Nat → SearchStrategy
  | CustomCell : List (Nat × Nat) → SearchStrategy

/-- `generate_cell_order_from_row_col` (bf_solver.rs line 216). -/
def generate_cell_order_from_row_col (row_order col_order : List Nat) : List (Nat × Nat) :=
  row_order.flatMap (fun r => col_order.map (fun c => (r, c)))

/-- The identity row/column order `[0, 1, 2, 3, 4, 5, 6, 7, 8]`. -/
def defaultOrderList : List Nat := [0, 1, 2, 3, 4, 5, 6, 7, 8]

/-- The cell order generated for each strategy (bf_solver.rs lines 276-303). -/
def strategyCellOrder : SearchStrategy → List (Nat × Nat)
  | SearchStrategy.Default => generate_cell_order_from_row_col defaultOrderList defaultOrderList
  | SearchStrategy.RowColRandom ro co => generate_cell_order_from_row_col ro co
  | SearchStrategy.CellRandom cells => cells
  | SearchStrategy.CustomRowCol ro co => generate_cell_order_from_row_col ro co
  | SearchStrategy.CustomCell co => co

/-- The solver state at the start of `find_one_solution_strategy`:
default stats, empty solution vector, arrays from `initialize_from_sudoku`. -/
def initState (sudoku : Sudoku) : SolverState :=
  let st := init_from_sudoku sudoku
  ⟨st.board, st.rows, st.cols, st.subgrids, SolverStats.default, [], false⟩

/-- The solver invocation inside `find_one_solution_strategy`
(bf_solver.rs lines 306-317), generalized over `find_all` so that the
all-solutions mode of `solve_recursive_cell_order` is covered as well. -/
def run_search (sudoku : Sudoku) (co : List (Nat × Nat)) (find_all : Bool) : SolverState :=
  solveRec co find_all 82 0 0 (initState sudoku)

/-- `find_one_solution_strategy` (bf_solver.rs line 259); `elapsed` models the
wall-clock duration read at line 322. -/
def find_one_solution_strategy (sudoku : Sudoku) (strategy : SearchStrategy)
    (elapsed : Nat) : Option Sudoku × SolverStats :=
  let co := strategyCellOrder strategy
  let s1 := run_search sudoku co false
  let solution := s1.solutions.head?
  (solution,
   { s1.stats with
     solutions_found := if solution.isSome then 1 else 0,
     search_duration := elapsed })

/-- `find_one_solution` (bf_solver.rs line 230). -/
def find_one_solution (sudoku : Sudoku) (elapsed : Nat) : Option Sudoku × SolverStats :=
  find_one_solution_strategy sudoku SearchStrategy.Default elapsed

/-- `find_one_solution_custom_cell_order` (bf_solver.rs line 249). -/
def find_one_solution_custom_cell_order (sudoku : Sudoku) (cell_order : List (Nat × Nat))
    (elapsed : Nat) : Option Sudoku × SolverStats :=
  find_one_solution_strategy sudoku (SearchStrategy.CustomCell cell_order) elapsed

/-! Well-formedness predicates and specification-side notions. -/

/-- Shape and value range of the scratch board: 9 rows of 9 cells, values 0-9. -/
def WFBoard (b : Board) : Prop :=
  b.length = 9 ∧ ∀ i < 9, (b.getD i []).length = 9 ∧ ∀ j < 9, bget b i j ≤ 9

/-- Shape of the mask arrays (three `[u16; 9]` arrays). -/
def WFMasks (rows cols subgrids : List Nat) : Prop :=
  rows.length = 9 ∧ cols.length = 9 ∧ subgrids.length = 9

/-- The `Sudoku` type invariant maintained by every constructor in
src/core/sudoku.rs: every candidate value is a digit 1-9. -/
def Sudoku.WF (s : Sudoku) : Prop :=
  ∀ i < 9, ∀ j < 9, ∀ v ∈ gridGet s.grid i j, 1 ≤ v ∧ v ≤ 9

/-- All coordinates of a cell order are inside the 9x9 grid. -/
def coordsOK (co : List (Nat × Nat)) : Prop := ∀ c ∈ co, c.1 < 9 ∧ c.2 < 9

/-- The first 81 entries of a cell order cover every cell of the grid. -/
def coversGrid (co : List (Nat × Nat)) : Prop :=
  ∀ a < 9, ∀ b < 9, (a, b) ∈ co.take 81

/-- Every cell at a position `< n` of the cell order is filled on the board. -/
def prefixFilled (co : List (Nat × Nat)) (b : Board) (n : Nat) : Prop :=
  ∀ k < n, bget b (co.getD k (0, 0)).1 (co.getD k (0, 0)).2 ≠ 0

/-- The cells of board row `i` in column order. -/
def rowCells (i : Nat) : List (Nat × Nat) := (List.range 9).map (fun j => (i, j))

/-- The cells of board column `j` in row order. -/
def colCells (j : Nat) : List (Nat × Nat) := (List.range 9).map (fun i => (i, j))

/-- The cells of box `k` (box index `(i/3)*3 + j/3`) in row-major order. -/
def boxCells (k : Nat) : List (Nat × Nat) :=
  (List.range 9).map (fun t => ((k / 3) * 3 + t / 3, (k % 3) * 3 + t % 3))

/-- Mask/board agreement for one unit: bit `d` of the unit's mask is set iff
some cell of the unit holds `d`, and no digit occupies two cells of the unit.
Together these say: bit `d` is set iff exactly one cell of the unit holds `d`. -/
def unitOK (b : Board) (mask : Nat) (cells : List (Nat × Nat)) : Prop :=
  ∀ d, d < 10 → 1 ≤ d →
    (mask.testBit d = true ↔ ∃ c ∈ cells, bget b c.1 c.2 = d) ∧
    (∀ c1 ∈ cells, ∀ c2 ∈ cells, bget b c1.1 c1.2 = d → bget b c2.1 c2.2 = d → c1 = c2)

/-- The bitmask invariant of the search: every row, column and box mask agrees
with the board. -/
def masksConsistent (b : Board) (rows cols subgrids : List Nat) : Prop :=
  (∀ i < 9, unitOK b (rows.getD i 0) (rowCells i)) ∧
  (∀ j < 9, unitOK b (cols.getD j 0) (colCells j)) ∧
  (∀ k < 9, unitOK b (subgrids.getD k 0) (boxCells k))

/-- The invariant on a solver state. -/
def Inv (s : SolverState) : Prop :=
  WFBoard s.board ∧ WFMasks s.rows s.cols s.subgrids ∧
    masksConsistent s.board s.rows s.cols s.subgrids

/-- The clue of the initial puzzle at a cell. -/
def clueOf (s : Sudoku) (c : Nat × Nat) : Option Nat := s.get_solved_value c.1 c.2

/-- No digit is given twice in any row, column or box of the initial puzzle. -/
def NoDupClues (s : Sudoku) : Prop :=
  ∀ d, d < 10 → 1 ≤ d →
    (∀ i < 9, ∀ c1 ∈ rowCells i, ∀ c2 ∈ rowCells i,
      clueOf s c1 = some d → clueOf s c2 = some d → c1 = c2) ∧
    (∀ j < 9, ∀ c1 ∈ colCells j, ∀ c2 ∈ colCells j,
      clueOf s c1 = some d → clueOf s c2 = some d → c1 = c2) ∧
    (∀ k < 9, ∀ c1 ∈ boxCells k, ∀ c2 ∈ boxCells k,
      clueOf s c1 = some d → clueOf s c2 = some d → c1 = c2)

/-- A fully filled valid grid: every cell a digit 1-9, no digit twice in any
row, column or box (the specification's row/column/box uniqueness invariant). -/
def ValidGrid (g : Board) : Prop :=
  (∀ a < 9, ∀ b < 9, 1 ≤ bget g a b ∧ bget g a b ≤ 9) ∧
  ∀ d, d < 10 → 1 ≤ d →
    (∀ i < 9, ∀ c1 ∈ rowCells i, ∀ c2 ∈ rowCells i,
      bget g c1.1 c1.2 = d → bget g c2.1 c2.2 = d → c1 = c2) ∧
    (∀ j < 9, ∀ c1 ∈ colCells j, ∀ c2 ∈ colCells j,
      bget g c1.1 c1.2 = d → bget g c2.1 c2.2 = d → c1 = c2) ∧
    (∀ k < 9, ∀ c1 ∈ boxCells k, ∀ c2 ∈ boxCells k,
      bget g c1.1 c1.2 = d → bget g c2.1 c2.2 = d → c1 = c2)

/-- A completion consistent with the clues of a puzzle (the specification's
notion of a solution existing): a fully filled valid grid that agrees with
every given clue. -/
def IsCompletion (sudoku : Sudoku) (g : Board) : Prop :=
  ValidGrid g ∧ ∀ a < 9, ∀ b < 9, ∀ v, sudoku.get_solved_value a b = some v → bget g a b = v

/-! Basic lemmas about list reads and writes. -/

theorem getD_set_self {α : Type} {l : List α} {i : Nat} (h : i < l.length) (v d : α) :
    (l.set i v).getD i d = v := by
  simp [List.getD_eq_getElem?_getD, List.getElem?_set_self h]

theorem getD_set_ne {α : Type} {l : List α} {i k : Nat} (h : i ≠ k) (v d : α) :
    (l.set i v).getD k d = l.getD k d := by
  simp [List.getD_eq_getElem?_getD, List.getElem?_set_ne h]

theorem bget_bset_eq {b : Board} {i j : Nat} (hi : i < b.length)
    (hj : j < (b.getD i []).length) (v : Nat) : bget (bset b i j v) i j = v := by
  unfold bget bset
  rw [getD_set_self hi, getD_set_self (by simpa using hj)]

theorem bget_bset_ne {b : Board} {i j a c : Nat} (h : i ≠ a ∨ j ≠ c) (v : Nat) :
    bget (bset b i j v) a c = bget b a c := by
  unfold bget bset
  rcases h with h | h
  · rw [getD_set_ne h]
  · by_cases hia : i = a
    · subst hia
      by_cases hlen : i < b.length
      · rw [getD_set_self hlen, getD_set_ne h]
      · rw [List.set_eq_of_length_le (by omega)]
    · rw [getD_set_ne hia]

theorem length_bset (b : Board) (i j v : Nat) : (bset b i j v).length = b.length := by
  simp [bset]

theorem rowlen_bset (b : Board) (i j v a : Nat) :
    ((bset b i j v).getD a []).length = (b.getD a []).length := by
  unfold bset
  by_cases hia : i = a
  · subst hia
    by_cases hlen : i < b.length
    · rw [getD_set_self hlen, List.length_set]
    · rw [List.set_eq_of_length_le (by omega)]
  · rw [getD_set_ne hia]

theorem WFBoard_bset {b : Board} (hb : WFBoard b) {i j v : Nat} (hv : v ≤ 9) :
    WFBoard (bset b i j v) := by
  obtain ⟨hlen, hrows⟩ := hb
  refine ⟨by simp [length_bset, hlen], fun a ha => ?_⟩
  obtain ⟨hrl, hvals⟩ := hrows a ha
  refine ⟨by rw [rowlen_bset]; exact hrl, fun c hc => ?_⟩
  by_cases hij : i = a ∧ j = c
  · obtain ⟨rfl, rfl⟩ := hij
    rw [bget_bset_eq (by omega) (by omega)]
    exact hv
  · rw [bget_bset_ne (by tauto) v]
    exact hvals c hc

/-! Bitmask lemmas; digits are at most 9 < 16, so the `u16` complement
`65535 ^^^ bit` behaves like a true complement on every relevant bit. -/

theorem and_shift_eq_zero_iff (x num : Nat) :
    (x &&& (1 <<< num) = 0) ↔ x.testBit num = false := by
  rw [Nat.shiftLeft_eq, one_mul, Nat.and_two_pow]
  rcases h : x.testBit num
  · simp
  · have hp : (2 : Nat) ^ num ≠ 0 := by positivity
    simp [hp]

theorem is_safe_iff (rows cols subgrids : List Nat) (i j num : Nat) :
    is_safe rows cols subgrids i j num = true ↔
      (rows.getD i 0).testBit num = false ∧ (cols.getD j 0).testBit num = false ∧
        (subgrids.getD ((i / 3) * 3 + j / 3) 0).testBit num = false := by
  unfold is_safe
  simp only [Bool.and_eq_true, beq_iff_eq]
  rw [and_shift_eq_zero_iff, and_shift_eq_zero_iff, and_shift_eq_zero_iff, and_assoc]

theorem testBit_or_shift (x num d : Nat) :
    (x ||| (1 <<< num)).testBit d = (x.testBit d || decide (num = d)) := by
  rw [Nat.testBit_or, Nat.shiftLeft_eq, one_mul, Nat.testBit_two_pow]

theorem testBit_and_not_shift (x num d : Nat) (hd : d < 16) :
    (x &&& (65535 ^^^ (1 <<< num))).testBit d = (x.testBit d && !decide (num = d)) := by
  rw [Nat.testBit_and, Nat.testBit_xor, Nat.shiftLeft_eq, one_mul, Nat.testBit_two_pow]
  have h1 : (65535 : Nat) = 2 ^ 16 - 1 := by norm_num
  rw [h1, Nat.testBit_two_pow_sub_one]
  simp [hd, Bool.xor_comm]

/-! Specification of the next-empty-cell scan. -/

theorem findNextEmptyGo_spec (co : List (Nat × Nat)) (b : Board) :
    ∀ fuel idx, idx ≤ 81 → 81 ≤ fuel + idx →
      idx ≤ findNextEmptyGo co b fuel idx ∧ findNextEmptyGo co b fuel idx ≤ 81 ∧
      (∀ k, idx ≤ k → k < findNextEmptyGo co b fuel idx →
        bget b (co.getD k (0, 0)).1 (co.getD k (0, 0)).2 ≠ 0) ∧
      (findNextEmptyGo co b fuel idx < 81 →
        bget b (co.getD (findNextEmptyGo co b fuel idx) (0, 0)).1
          (co.getD (findNextEmptyGo co b fuel idx) (0, 0)).2 = 0) := by
  intro fuel
  induction fuel with
  | zero =>
    intro idx h81 hf
    have hidx : idx = 81 := by omega
    subst hidx
    rw [findNextEmptyGo]
    exact ⟨le_refl _, le_refl _, fun k hk1 hk2 => by omega, fun h => by omega⟩
  | succ fuel ih =>
    intro idx h81 hf
    rw [findNextEmptyGo]
    by_cases hlt : idx < 81
    · rw [if_pos hlt]
      by_cases hz : bget b (co.getD idx (0, 0)).1 (co.getD idx (0, 0)).2 = 0
      · rw [if_pos hz]
        exact ⟨le_refl _, by omega, fun k hk1 hk2 => by omega, fun _ => hz⟩
      · rw [if_neg hz]
        obtain ⟨h1, h2, h3, h4⟩ := ih (idx + 1) (by omega) (by omega)
        refine ⟨by omega, h2, fun k hk1 hk2 => ?_, h4⟩
        rcases Nat.eq_or_lt_of_le hk1 with rfl | hk1'
        · exact hz
        · exact h3 k hk1' hk2
    · rw [if_neg hlt]
      exact ⟨le_refl _, by omega, fun k hk1 hk2 => by omega, fun h => absurd h hlt⟩

theorem findNextEmpty_spec (co : List (Nat × Nat)) (b : Board) (idx : Nat) (h : idx ≤ 81) :
    idx ≤ findNextEmpty co b idx ∧ findNextEmpty co b idx ≤ 81 ∧
    (∀ k, idx ≤ k → k < findNextEmpty co b idx →
      bget b (co.getD k (0, 0)).1 (co.getD k (0, 0)).2 ≠ 0) ∧
    (findNextEmpty co b idx < 81 →
      bget b (co.getD (findNextEmpty co b idx) (0, 0)).1
        (co.getD (findNextEmpty co b idx) (0, 0)).2 = 0) :=
  findNextEmptyGo_spec co b (81 - idx) idx h (by omega)

theorem findNextEmpty_of_filled (co : List (Nat × Nat)) (b : Board) (idx : Nat)
    (h : idx ≤ 81) (hf : prefixFilled co b 81) : findNextEmpty co b idx = 81 := by
  obtain ⟨h1, h2, _, h4⟩ := findNextEmpty_spec co b idx h
  by_contra hne
  exact hf _ (by omega) (h4 (by omega))

/-! Membership in the unit cell lists. -/

theorem mem_rowCells {c : Nat × Nat} {i : Nat} : c ∈ rowCells i ↔ c.1 = i ∧ c.2 < 9 := by
  simp only [rowCells, List.mem_map, List.mem_range]
  constructor
  · rintro ⟨j, hj, rfl⟩
    exact ⟨rfl, hj⟩
  · rintro ⟨h1, h2⟩
    exact ⟨c.2, h2, by rw [← h1]⟩

theorem mem_colCells {c : Nat × Nat} {j : Nat} : c ∈ colCells j ↔ c.2 = j ∧ c.1 < 9 := by
  simp only [colCells, List.mem_map, List.mem_range]
  constructor
  · rintro ⟨i, hi, rfl⟩
    exact ⟨rfl, hi⟩
  · rintro ⟨h1, h2⟩
    exact ⟨c.1, h2, by rw [← h1]⟩

theorem mem_boxCells {c : Nat × Nat} {k : Nat} (hk : k < 9) :
    c ∈ boxCells k ↔ c.1 < 9 ∧ c.2 < 9 ∧ (c.1 / 3) * 3 + c.2 / 3 = k := by
  simp only [boxCells, List.mem_map, List.mem_range]
  constructor
  · rintro ⟨t, ht, rfl⟩
    refine ⟨by omega, by omega, by omega⟩
  · rintro ⟨h1, h2, h3⟩
    refine ⟨(c.1 % 3) * 3 + c.2 % 3, by omega, ?_⟩
    have : ((c.1 % 3) * 3 + c.2 % 3) / 3 = c.1 % 3 := by omega
    have : ((c.1 % 3) * 3 + c.2 % 3) % 3 = c.2 % 3 := by omega
    obtain ⟨a, b⟩ := c
    simp only [Prod.mk.injEq]
    omega

theorem mem_cellsRowMajor {c : Nat × Nat} : c ∈ cellsRowMajor ↔ c.1 < 9 ∧ c.2 < 9 := by
  simp only [cellsRowMajor, List.mem_flatMap, List.mem_map, List.mem_range]
  constructor
  · rintro ⟨i, hi, j, hj, rfl⟩
    exact ⟨hi, hj⟩
  · rintro ⟨h1, h2⟩
    exact ⟨c.1, h1, c.2, h2, rfl⟩

theorem coordsOK_getD {co : List (Nat × Nat)} (h : coordsOK co) (k : Nat) :
    (co.getD k (0, 0)).1 < 9 ∧ (co.getD k (0, 0)).2 < 9 := by
  by_cases hk : k < co.length
  · have : co.getD k (0, 0) ∈ co := by
      rw [List.getD_eq_getElem?_getD, List.getElem?_eq_getElem hk]
      exact List.getElem_mem hk
    exact h _ this
  · rw [List.getD_eq_getElem?_getD, List.getElem?_eq_none (by omega)]
    exact ⟨by norm_num, by norm_num⟩

theorem coversGrid_length {co : List (Nat × Nat)} (h : coversGrid co) : 81 ≤ co.length := by
  by_contra hlen
  push_neg at hlen
  classical
  have hsub : (Finset.range 9) ×ˢ (Finset.range 9) ⊆ (co.take 81).toFinset := by
    intro c hc
    simp only [Finset.mem_product, Finset.mem_range] at hc
    rw [List.mem_toFinset]
    obtain ⟨a, b⟩ := c
    exact h a hc.1 b hc.2
  have hcard : ((Finset.range 9) ×ˢ (Finset.range 9)).card ≤ (co.take 81).toFinset.card :=
    Finset.card_le_card hsub
  have h1 : ((Finset.range 9) ×ˢ (Finset.range 9)).card = 81 := by
    simp [Finset.card_product]
  have h2 : (co.take 81).toFinset.card ≤ (co.take 81).length :=
    List.toFinset_card_le _
  have h3 : (co.take 81).length ≤ co.length := by
    simp [List.length_take]
  omega

/-! Preservation of `unitOK` under digit placement and removal. -/

theorem cell_ne {c : Nat × Nat} {i j : Nat} (h : c ≠ (i, j)) : i ≠ c.1 ∨ j ≠ c.2 := by
  obtain ⟨a, b⟩ := c
  rw [ne_eq, Prod.mk.injEq, not_and] at h
  by_cases ha : a = i
  · exact Or.inr (fun hb => h ha hb.symm)
  · exact Or.inl (fun he => ha he.symm)

theorem unitOK_place_mem {b : Board} {mask : Nat} {cells : List (Nat × Nat)} {i j num : Nat}
    (hb : i < b.length) (hrow : j < (b.getD i []).length)
    (hnum1 : 1 ≤ num) (hz : bget b i j = 0)
    (hbit : mask.testBit num = false) (hmem : (i, j) ∈ cells)
    (hok : unitOK b mask cells) :
    unitOK (bset b i j num) (mask ||| (1 <<< num)) cells := by
  intro d hd10 hd1
  obtain ⟨hiff, huniq⟩ := hok d hd10 hd1
  by_cases hdn : num = d
  · subst hdn
    have key : ∀ c ∈ cells, bget (bset b i j num) c.1 c.2 = num → c = (i, j) := by
      rintro c hc hcv
      by_cases hcij : c = (i, j)
      · exact hcij
      · exfalso
        rw [bget_bset_ne (cell_ne hcij) num] at hcv
        have : mask.testBit num = true := hiff.mpr ⟨c, hc, hcv⟩
        rw [this] at hbit
        exact Bool.noConfusion hbit
    constructor
    · constructor
      · intro _
        exact ⟨(i, j), hmem, bget_bset_eq hb hrow num⟩
      · intro _
        rw [testBit_or_shift]
        simp
    · rintro c1 hc1 c2 hc2 h1 h2
      rw [key c1 hc1 h1, key c2 hc2 h2]
  · have hbget_eq : ∀ c ∈ cells, (bget (bset b i j num) c.1 c.2 = d ↔ bget b c.1 c.2 = d) := by
      rintro c hc
      by_cases hcij : c = (i, j)
      · subst hcij
        rw [bget_bset_eq hb hrow num, hz]
        constructor
        · intro h
          exact absurd h hdn
        · intro h
          omega
      · rw [bget_bset_ne (cell_ne hcij) num]
    constructor
    · rw [testBit_or_shift]
      have : decide (num = d) = false := by simp [hdn]
      rw [this, Bool.or_false, hiff]
      constructor
      · rintro ⟨c, hc, hcv⟩
        exact ⟨c, hc, (hbget_eq c hc).mpr hcv⟩
      · rintro ⟨c, hc, hcv⟩
        exact ⟨c, hc, (hbget_eq c hc).mp hcv⟩
    · rintro c1 hc1 c2 hc2 h1 h2
      exact huniq c1 hc1 c2 hc2 ((hbget_eq c1 hc1).mp h1) ((hbget_eq c2 hc2).mp h2)

theorem unitOK_unplace_mem {b : Board} {mask : Nat} {cells : List (Nat × Nat)} {i j num : Nat}
    (hb : i < b.length) (hrow : j < (b.getD i []).length)
    (hnum1 : 1 ≤ num) (hnum9 : num ≤ 9) (hval : bget b i j = num) (hmem : (i, j) ∈ cells)
    (hok : unitOK b mask cells) :
    unitOK (bset b i j 0) (mask &&& (65535 ^^^ (1 <<< num))) cells := by
  intro d hd10 hd1
  obtain ⟨hiff, huniq⟩ := hok d hd10 hd1
  have hnone : ∀ c ∈ cells, bget (bset b i j 0) c.1 c.2 = num → False := by
    rintro c hc hcv
    by_cases hcij : c = (i, j)
    · subst hcij
      rw [bget_bset_eq hb hrow 0] at hcv
      omega
    · rw [bget_bset_ne (cell_ne hcij) 0] at hcv
      obtain ⟨hiffn, huniqn⟩ := hok num (by omega) hnum1
      exact hcij (huniqn c hc (i, j) hmem hcv hval)
  by_cases hdn : num = d
  · subst hdn
    constructor
    · constructor
      · intro h
        rw [testBit_and_not_shift _ _ _ (by omega)] at h
        simp at h
      · rintro ⟨c, hc, hcv⟩
        exact absurd hcv (fun hcv => hnone c hc hcv)
    · rintro c1 hc1 c2 hc2 h1 h2
      exact absurd h1 (fun h1 => hnone c1 hc1 h1)
  · have hbget_eq : ∀ c ∈ cells, (bget (bset b i j 0) c.1 c.2 = d ↔ bget b c.1 c.2 = d) := by
      rintro c hc
      by_cases hcij : c = (i, j)
      · subst hcij
        rw [bget_bset_eq hb hrow 0, hval]
        constructor
        · intro h
          omega
        · intro h
          exact absurd h hdn
      · rw [bget_bset_ne (cell_ne hcij) 0]
    constructor
    · rw [testBit_and_not_shift _ _ _ (by omega)]
      have : decide (num = d) = false := by simp [hdn]
      rw [this, Bool.not_false, Bool.and_true, hiff]
      constructor
      · rintro ⟨c, hc, hcv⟩
        exact ⟨c, hc, (hbget_eq c hc).mpr hcv⟩
      · rintro ⟨c, hc, hcv⟩
        exact ⟨c, hc, (hbget_eq c hc).mp hcv⟩
    · rintro c1 hc1 c2 hc2 h1 h2
      exact huniq c1 hc1 c2 hc2 ((hbget_eq c1 hc1).mp h1) ((hbget_eq c2 hc2).mp h2)

theorem unitOK_bset_notmem {b : Board} {mask : Nat} {cells : List (Nat × Nat)} {i j v : Nat}
    (hmem : (i, j) ∉ cells) (hok : unitOK b mask cells) :
    unitOK (bset b i j v) mask cells := by
  intro d hd10 hd1
  obtain ⟨hiff, huniq⟩ := hok d hd10 hd1
  have hbget_eq : ∀ c ∈ cells, bget (bset b i j v) c.1 c.2 = bget b c.1 c.2 := by
    rintro c hc
    have : c ≠ (i, j) := fun h => hmem (h ▸ hc)
    rw [bget_bset_ne (cell_ne this) v]
  constructor
  · rw [hiff]
    constructor
    · rintro ⟨c, hc, hcv⟩
      exact ⟨c, hc, by rw [hbget_eq c hc]; exact hcv⟩
    · rintro ⟨c, hc, hcv⟩
      exact ⟨c, hc, by rw [← hbget_eq c hc]; exact hcv⟩
  · rintro c1 hc1 c2 hc2 h1 h2
    rw [hbget_eq c1 hc1] at h1
    rw [hbget_eq c2 hc2] at h2
    exact huniq c1 hc1 c2 hc2 h1 h2

/-! The invariant is preserved by one placement and by one backtrack step. -/

theorem masksConsistent_place {b : Board} {rows cols subs : List Nat} {i j num : Nat}
    (hi : i < 9) (hj : j < 9) (hn1 : 1 ≤ num) (hn9 : num ≤ 9)
    (hwb : WFBoard b) (hwm : WFMasks rows cols subs) (hz : bget b i j = 0)
    (hsafe : is_safe rows cols subs i j num = true)
    (hmc : masksConsistent b rows cols subs) :
    masksConsistent (bset b i j num)
      (rows.set i ((rows.getD i 0) ||| (1 <<< num)))
      (cols.set j ((cols.getD j 0) ||| (1 <<< num)))
      (subs.set ((i / 3) * 3 + j / 3) ((subs.getD ((i / 3) * 3 + j / 3) 0) ||| (1 <<< num))) := by
  obtain ⟨hrow0, hcol0, hbox0⟩ := (is_safe_iff rows cols subs i j num).mp hsafe
  obtain ⟨hmcr, hmcc, hmcb⟩ := hmc
  have hbl : i < b.length := by rw [hwb.1]; exact hi
  have hrl : j < (b.getD i []).length := by rw [(hwb.2 i hi).1]; exact hj
  obtain ⟨hrlen, hclen, hslen⟩ := hwm
  refine ⟨?_, ?_, ?_⟩
  · intro i' hi'
    by_cases hii : i = i'
    · subst hii
      rw [getD_set_self (by omega)]
      exact unitOK_place_mem hbl hrl hn1 hz hrow0 (mem_rowCells.mpr ⟨rfl, hj⟩) (hmcr i hi)
    · rw [getD_set_ne hii]
      refine unitOK_bset_notmem ?_ (hmcr i' hi')
      intro hmem
      exact hii (mem_rowCells.mp hmem).1
  · intro j' hj'
    by_cases hjj : j = j'
    · subst hjj
      rw [getD_set_self (by omega)]
      exact unitOK_place_mem hbl hrl hn1 hz hcol0 (mem_colCells.mpr ⟨rfl, hi⟩) (hmcc j hj)
    · rw [getD_set_ne hjj]
      refine unitOK_bset_notmem ?_ (hmcc j' hj')
      intro hmem
      exact hjj (mem_colCells.mp hmem).1
  · intro k hk
    by_cases hkk : (i / 3) * 3 + j / 3 = k
    · subst hkk
      rw [getD_set_self (by omega)]
      refine unitOK_place_mem hbl hrl hn1 hz hbox0 ?_ (hmcb _ (by omega))
      exact (mem_boxCells (by omega)).mpr ⟨hi, hj, rfl⟩
    · rw [getD_set_ne hkk]
      refine unitOK_bset_notmem ?_ (hmcb k hk)
      intro hmem
      exact hkk ((mem_boxCells hk).mp hmem).2.2

theorem masksConsistent_unplace {b : Board} {rows cols subs : List Nat} {i j num : Nat}
    (hi : i < 9) (hj : j < 9) (hn1 : 1 ≤ num) (hn9 : num ≤ 9)
    (hwb : WFBoard b) (hwm : WFMasks rows cols subs) (hval : bget b i j = num)
    (hmc : masksConsistent b rows cols subs) :
    masksConsistent (bset b i j 0)
      (rows.set i ((rows.getD i 0) &&& (65535 ^^^ (1 <<< num))))
      (cols.set j ((cols.getD j 0) &&& (65535 ^^^ (1 <<< num))))
      (subs.set ((i / 3) * 3 + j / 3)
        ((subs.getD ((i / 3) * 3 + j / 3) 0) &&& (65535 ^^^ (1 <<< num)))) := by
  obtain ⟨hmcr, hmcc, hmcb⟩ := hmc
  have hbl : i < b.length := by rw [hwb.1]; exact hi
  have hrl : j < (b.getD i []).length := by rw [(hwb.2 i hi).1]; exact hj
  obtain ⟨hrlen, hclen, hslen⟩ := hwm
  refine ⟨?_, ?_, ?_⟩
  · intro i' hi'
    by_cases hii : i = i'
    · subst hii
      rw [getD_set_self (by omega)]
      exact unitOK_unplace_mem hbl hrl hn1 hn9 hval (mem_rowCells.mpr ⟨rfl, hj⟩) (hmcr i hi)
    · rw [getD_set_ne hii]
      refine unitOK_bset_notmem ?_ (hmcr i' hi')
      intro hmem
      exact hii (mem_rowCells.mp hmem).1
  · intro j' hj'
    by_cases hjj : j = j'
    · subst hjj
      rw [getD_set_self (by omega)]
      exact unitOK_unplace_mem hbl hrl hn1 hn9 hval (mem_colCells.mpr ⟨rfl, hi⟩) (hmcc j hj)
    · rw [getD_set_ne hjj]
      refine unitOK_bset_notmem ?_ (hmcc j' hj')
      intro hmem
      exact hjj (mem_colCells.mp hmem).1
  · intro k hk
    by_cases hkk : (i / 3) * 3 + j / 3 = k
    · subst hkk
      rw [getD_set_self (by omega)]
      refine unitOK_unplace_mem hbl hrl hn1 hn9 hval ?_ (hmcb _ (by omega))
      exact (mem_boxCells (by omega)).mpr ⟨hi, hj, rfl⟩
    · rw [getD_set_ne hkk]
      refine unitOK_bset_notmem ?_ (hmcb k hk)
      intro hmem
      exact hkk ((mem_boxCells hk).mp hmem).2.2

theorem Inv_place {s : SolverState} {i j num : Nat} (hi : i < 9) (hj : j < 9)
    (hn1 : 1 ≤ num) (hn9 : num ≤ 9) (hz : bget s.board i j = 0)
    (hsafe : is_safe s.rows s.cols s.subgrids i j num = true) (hinv : Inv s) :
    Inv (place i j num s) := by
  obtain ⟨hwb, hwm, hmc⟩ := hinv
  refine ⟨WFBoard_bset hwb hn9, ⟨?_, ?_, ?_⟩, ?_⟩
  · simp [place, hwm.1]
  · simp [place, hwm.2.1]
  · simp [place, hwm.2.2]
  · exact masksConsistent_place hi hj hn1 hn9 hwb hwm hz hsafe hmc

theorem Inv_unplace {s : SolverState} {i j num : Nat} (hi : i < 9) (hj : j < 9)
    (hn1 : 1 ≤ num) (hn9 : num ≤ 9) (hval : bget s.board i j = num) (hinv : Inv s) :
    Inv (unplace i j num s) := by
  obtain ⟨hwb, hwm, hmc⟩ := hinv
  refine ⟨WFBoard_bset hwb (by omega), ⟨?_, ?_, ?_⟩, ?_⟩
  · simp [unplace, hwm.1]
  · simp [unplace, hwm.2.1]
  · simp [unplace, hwm.2.2]
  · exact masksConsistent_unplace hi hj hn1 hn9 hwb hwm hval hmc

/-! Characterization of `initialize_from_sudoku`. -/

theorem clue_range {s : Sudoku} (hWF : Sudoku.WF s) {a b v : Nat} (ha : a < 9) (hb : b < 9)
    (h : s.get_solved_value a b = some v) : 1 ≤ v ∧ v ≤ 9 := by
  unfold Sudoku.get_solved_value at h
  by_cases hlen : (gridGet s.grid a b).length = 1
  · rw [if_pos hlen] at h
    obtain ⟨x, hx⟩ := List.length_eq_one.mp hlen
    have hv : v = x := by rw [hx] at h; simpa using h.symm
    subst hv
    exact hWF a ha b hb v (by rw [hx]; exact List.mem_singleton_self _)
  · rw [if_neg hlen] at h
    exact absurd h (by simp)

theorem getD_replicate_ite {α : Type} (n : Nat) (x d : α) (i : Nat) :
    (List.replicate n x).getD i d = if i < n then x else d := by
  rw [List.getD_eq_getElem?_getD, List.getElem?_replicate]
  by_cases h : i < n
  · rw [if_pos h, if_pos h]
    rfl
  · rw [if_neg h, if_neg h]
    rfl

theorem bget_emptyBoard (a b : Nat) : bget emptyBoard a b = 0 := by
  unfold bget emptyBoard
  rw [getD_replicate_ite]
  by_cases ha : a < 9
  · rw [if_pos ha, getD_replicate_ite]
    by_cases hb : b < 9
    · rw [if_pos hb]
    · rw [if_neg hb]
  · rw [if_neg ha]
    rfl

theorem initFold_spec (sudoku : Sudoku) (hWF : Sudoku.WF sudoku) :
    ∀ (cells : List (Nat × Nat)) (st : InitSt),
      (∀ c ∈ cells, c.1 < 9 ∧ c.2 < 9) → WFBoard st.board →
      WFMasks st.rows st.cols st.subgrids →
      WFBoard (cells.foldl (initStep sudoku) st).board ∧
      WFMasks (cells.foldl (initStep sudoku) st).rows
        (cells.foldl (initStep sudoku) st).cols
        (cells.foldl (initStep sudoku) st).subgrids ∧
      (∀ a, a < 9 → ∀ b, b < 9 →
        bget (cells.foldl (initStep sudoku) st).board a b =
          if (a, b) ∈ cells then (sudoku.get_solved_value a b).getD (bget st.board a b)
          else bget st.board a b) ∧
      (∀ i, i < 9 → ∀ d,
        (((cells.foldl (initStep sudoku) st).rows.getD i 0).testBit d = true ↔
          (st.rows.getD i 0).testBit d = true ∨
            ∃ c ∈ cells, c.1 = i ∧ sudoku.get_solved_value c.1 c.2 = some d)) ∧
      (∀ j, j < 9 → ∀ d,
        (((cells.foldl (initStep sudoku) st).cols.getD j 0).testBit d = true ↔
          (st.cols.getD j 0).testBit d = true ∨
            ∃ c ∈ cells, c.2 = j ∧ sudoku.get_solved_value c.1 c.2 = some d)) ∧
      (∀ k, k < 9 → ∀ d,
        (((cells.foldl (initStep sudoku) st).subgrids.getD k 0).testBit d = true ↔
          (st.subgrids.getD k 0).testBit d = true ∨
            ∃ c ∈ cells, (c.1 / 3) * 3 + c.2 / 3 = k ∧
              sudoku.get_solved_value c.1 c.2 = some d)) := by
  intro cells
  induction cells with
  | nil =>
    intro st hc hwb hwm
    refine ⟨hwb, hwm, ?_, ?_, ?_, ?_⟩ <;> simp
  | cons c rest ih =>
    obtain ⟨ci, cj⟩ := c
    intro st hc hwb hwm
    have hci : ci < 9 := (hc (ci, cj) (List.mem_cons_self _ _)).1
    have hcj : cj < 9 := (hc (ci, cj) (List.mem_cons_self _ _)).2
    have hrest : ∀ c' ∈ rest, c'.1 < 9 ∧ c'.2 < 9 :=
      fun c' hc' => hc c' (List.mem_cons_of_mem _ hc')
    rw [List.foldl_cons]
    rcases hclue : sudoku.get_solved_value ci cj with _ | v
    · have hstep : initStep sudoku st (ci, cj) = st := by
        unfold initStep
        rw [hclue]
      rw [hstep]
      obtain ⟨ih1, ih2, ih3, ih4, ih5, ih6⟩ := ih st hrest hwb hwm
      refine ⟨ih1, ih2, ?_, ?_, ?_, ?_⟩
      · intro a ha b hb
        rw [ih3 a ha b hb]
        by_cases hmem : (a, b) ∈ rest
        · rw [if_pos hmem, if_pos (List.mem_cons_of_mem _ hmem)]
        · rw [if_neg hmem]
          by_cases heqc : (a, b) = (ci, cj)
          · rw [if_pos (by rw [heqc]; exact List.mem_cons_self _ _)]
            obtain ⟨rfl, rfl⟩ := Prod.mk.injEq .. ▸ heqc
            rw [hclue]
            rfl
          · rw [if_neg (by
              intro hmem'
              rcases List.mem_cons.mp hmem' with h | h
              · exact heqc h
              · exact hmem h)]
      · intro i hi d
        rw [ih4 i hi d]
        constructor
        · rintro (h | ⟨c', hc', h1, h2⟩)
          · exact Or.inl h
          · exact Or.inr ⟨c', List.mem_cons_of_mem _ hc', h1, h2⟩
        · rintro (h | ⟨c', hc', h1, h2⟩)
          · exact Or.inl h
          · rcases List.mem_cons.mp hc' with rfl | hc''
            · rw [hclue] at h2
              exact absurd h2 (by simp)
            · exact Or.inr ⟨c', hc'', h1, h2⟩
      · intro j hj d
        rw [ih5 j hj d]
        constructor
        · rintro (h | ⟨c', hc', h1, h2⟩)
          · exact Or.inl h
          · exact Or.inr ⟨c', List.mem_cons_of_mem _ hc', h1, h2⟩
        · rintro (h | ⟨c', hc', h1, h2⟩)
          · exact Or.inl h
          · rcases List.mem_cons.mp hc' with rfl | hc''
            · rw [hclue] at h2
              exact absurd h2 (by simp)
            · exact Or.inr ⟨c', hc'', h1, h2⟩
      · intro k hk d
        rw [ih6 k hk d]
        constructor
        · rintro (h | ⟨c', hc', h1, h2⟩)
          · exact Or.inl h
          · exact Or.inr ⟨c', List.mem_cons_of_mem _ hc', h1, h2⟩
        · rintro (h | ⟨c', hc', h1, h2⟩)
          · exact Or.inl h
          · rcases List.mem_cons.mp hc' with rfl | hc''
            · rw [hclue] at h2
              exact absurd h2 (by simp)
            · exact Or.inr ⟨c', hc'', h1, h2⟩
    · -- a clue at (ci, cj): all four arrays are updated
      obtain ⟨hv1, hv9⟩ := clue_range hWF hci hcj hclue
      have hstep : initStep sudoku st (ci, cj) =
          { board := bset st.board ci cj v,
            rows := st.rows.set ci ((st.rows.getD ci 0) ||| (1 <<< v)),
            cols := st.cols.set cj ((st.cols.getD cj 0) ||| (1 <<< v)),
            subgrids := st.subgrids.set ((ci / 3) * 3 + cj / 3)
              ((st.subgrids.getD ((ci / 3) * 3 + cj / 3) 0) ||| (1 <<< v)) } := by
        unfold initStep
        rw [hclue]
      rw [hstep]
      set st' : InitSt :=
        { board := bset st.board ci cj v,
          rows := st.rows.set ci ((st.rows.getD ci 0) ||| (1 <<< v)),
          cols := st.cols.set cj ((st.cols.getD cj 0) ||| (1 <<< v)),
          subgrids := st.subgrids.set ((ci / 3) * 3 + cj / 3)
            ((st.subgrids.getD ((ci / 3) * 3 + cj / 3) 0) ||| (1 <<< v)) } with hst'
      have hwb' : WFBoard st'.board := WFBoard_bset hwb hv9
      have hwm' : WFMasks st'.rows st'.cols st'.subgrids := by
        refine ⟨?_, ?_, ?_⟩ <;> simp [hst', hwm.1, hwm.2.1, hwm.2.2]
      obtain ⟨ih1, ih2, ih3, ih4, ih5, ih6⟩ := ih st' hrest hwb' hwm'
      have hb_ci : ci < st.board.length := by rw [hwb.1]; exact hci
      have hb_cj : cj < (st.board.getD ci []).length := by rw [(hwb.2 ci hci).1]; exact hcj
      refine ⟨ih1, ih2, ?_, ?_, ?_, ?_⟩
      · intro a ha b hb
        rw [ih3 a ha b hb]
        by_cases heqc : (a, b) = (ci, cj)
        · obtain ⟨rfl, rfl⟩ := Prod.mk.injEq .. ▸ heqc
          have hget : bget st'.board a b = v := bget_bset_eq hb_ci hb_cj v
          rw [if_pos (List.mem_cons_self _ _), hclue]
          by_cases hmem : (a, b) ∈ rest
          · rw [if_pos hmem]
            rfl
          · rw [if_neg hmem, hget]
            rfl
        · have hget : bget st'.board a b = bget st.board a b := by
            have : ci ≠ a ∨ cj ≠ b := by
              rcases cell_ne heqc with h | h
              · exact Or.inl h
              · exact Or.inr h
            exact bget_bset_ne this v
          by_cases hmem : (a, b) ∈ rest
          · rw [if_pos hmem, if_pos (List.mem_cons_of_mem _ hmem), hget]
          · rw [if_neg hmem, hget, if_neg (by
              intro hmem'
              rcases List.mem_cons.mp hmem' with h | h
              · exact heqc h
              · exact hmem h)]
      · intro i hi d
        rw [ih4 i hi d]
        by_cases hii : ci = i
        · subst hii
          have : st'.rows.getD ci 0 = (st.rows.getD ci 0) ||| (1 <<< v) := by
            rw [hst']
            exact getD_set_self (by rw [hwm.1]; exact hci) _ _
          rw [this, testBit_or_shift]
          simp only [Bool.or_eq_true, decide_eq_true_eq]
          constructor
          · rintro ((h | h) | h)
            · exact Or.inl h
            · exact Or.inr ⟨(ci, cj), List.mem_cons_self _ _, rfl, by rw [hclue, h]⟩
            · rcases h with ⟨c', hc', h1, h2⟩
              exact Or.inr ⟨c', List.mem_cons_of_mem _ hc', h1, h2⟩
          · rintro (h | ⟨c', hc', h1, h2⟩)
            · exact Or.inl (Or.inl h)
            · rcases List.mem_cons.mp hc' with rfl | hc''
              · rw [hclue] at h2
                exact Or.inl (Or.inr (by simpa using h2))
              · exact Or.inr ⟨c', hc'', h1, h2⟩
        · have : st'.rows.getD i 0 = st.rows.getD i 0 := by
            rw [hst']
            exact getD_set_ne hii _ _
          rw [this]
          constructor
          · rintro (h | ⟨c', hc', h1, h2⟩)
            · exact Or.inl h
            · exact Or.inr ⟨c', List.mem_cons_of_mem _ hc', h1, h2⟩
          · rintro (h | ⟨c', hc', h1, h2⟩)
            · exact Or.inl h
            · rcases List.mem_cons.mp hc' with rfl | hc''
              · exact absurd h1 hii
              · exact Or.inr ⟨c', hc'', h1, h2⟩
      · intro j hj d
        rw [ih5 j hj d]
        by_cases hjj : cj = j
        · subst hjj
          have : st'.cols.getD cj 0 = (st.cols.getD cj 0) ||| (1 <<< v) := by
            rw [hst']
            exact getD_set_self (by rw [hwm.2.1]; exact hcj) _ _
          rw [this, testBit_or_shift]
          simp only [Bool.or_eq_true, decide_eq_true_eq]
          constructor
          · rintro ((h | h) | h)
            · exact Or.inl h
            · exact Or.inr ⟨(ci, cj), List.mem_cons_self _ _, rfl, by rw [hclue, h]⟩
            · rcases h with ⟨c', hc', h1, h2⟩
              exact Or.inr ⟨c', List.mem_cons_of_mem _ hc', h1, h2⟩
          · rintro (h | ⟨c', hc', h1, h2⟩)
            · exact Or.inl (Or.inl h)
            · rcases List.mem_cons.mp hc' with rfl | hc''
              · rw [hclue] at h2
                exact Or.inl (Or.inr (by simpa using h2))
              · exact Or.inr ⟨c', hc'', h1, h2⟩
        · have : st'.cols.getD j 0 = st.cols.getD j 0 := by
            rw [hst']
            exact getD_set_ne hjj _ _
          rw [this]
          constructor
          · rintro (h | ⟨c', hc', h1, h2⟩)
            · exact Or.inl h
            · exact Or.inr ⟨c', List.mem_cons_of_mem _ hc', h1, h2⟩
          · rintro (h | ⟨c', hc', h1, h2⟩)
            · exact Or.inl h
            · rcases List.mem_cons.mp hc' with rfl | hc''
              · exact absurd h1 hjj
              · exact Or.inr ⟨c', hc'', h1, h2⟩
      · intro k hk d
        rw [ih6 k hk d]
        by_cases hkk : (ci / 3) * 3 + cj / 3 = k
        · subst hkk
          have : st'.subgrids.getD ((ci / 3) * 3 + cj / 3) 0 =
              (st.subgrids.getD ((ci / 3) * 3 + cj / 3) 0) ||| (1 <<< v) := by
            rw [hst']
            exact getD_set_self (by rw [hwm.2.2]; omega) _ _
          rw [this, testBit_or_shift]
          simp only [Bool.or_eq_true, decide_eq_true_eq]
          constructor
          · rintro ((h | h) | h)
            · exact Or.inl h
            · exact Or.inr ⟨(ci, cj), List.mem_cons_self _ _, rfl, by rw [hclue, h]⟩
            · rcases h with ⟨c', hc', h1, h2⟩
              exact Or.inr ⟨c', List.mem_cons_of_mem _ hc', h1, h2⟩
          · rintro (h | ⟨c', hc', h1, h2⟩)
            · exact Or.inl (Or.inl h)
            · rcases List.mem_cons.mp hc' with rfl | hc''
              · rw [hclue] at h2
                exact Or.inl (Or.inr (by simpa using h2))
              · exact Or.inr ⟨c', hc'', h1, h2⟩
        · have : st'.subgrids.getD k 0 = st.subgrids.getD k 0 := by
            rw [hst']
            exact getD_set_ne hkk _ _
          rw [this]
          constructor
          · rintro (h | ⟨c', hc', h1, h2⟩)
            · exact Or.inl h
            · exact Or.inr ⟨c', List.mem_cons_of_mem _ hc', h1, h2⟩
          · rintro (h | ⟨c', hc', h1, h2⟩)
            · exact Or.inl h
            · rcases List.mem_cons.mp hc' with rfl | hc''
              · exact absurd h1 hkk
              · exact Or.inr ⟨c', hc'', h1, h2⟩

theorem init_spec (sudoku : Sudoku) (hWF : Sudoku.WF sudoku) :
    WFBoard (init_from_sudoku sudoku).board ∧
    WFMasks (init_from_sudoku sudoku).rows (init_from_sudoku sudoku).cols
      (init_from_sudoku sudoku).subgrids ∧
    (∀ a, a < 9 → ∀ b, b < 9 →
      bget (init_from_sudoku sudoku).board a b = (sudoku.get_solved_value a b).getD 0) ∧
    (∀ i, i < 9 → ∀ d,
      (((init_from_sudoku sudoku).rows.getD i 0).testBit d = true ↔
        ∃ c ∈ rowCells i, sudoku.get_solved_value c.1 c.2 = some d)) ∧
    (∀ j, j < 9 → ∀ d,
      (((init_from_sudoku sudoku).cols.getD j 0).testBit d = true ↔
        ∃ c ∈ colCells j, sudoku.get_solved_value c.1 c.2 = some d)) ∧
    (∀ k, k < 9 → ∀ d,
      (((init_from_sudoku sudoku).subgrids.getD k 0).testBit d = true ↔
        ∃ c ∈ boxCells k, sudoku.get_solved_value c.1 c.2 = some d)) := by
  have hwb0 : WFBoard emptyBoard := by
    refine ⟨by simp [emptyBoard], fun i hi => ?_⟩
    rw [show (emptyBoard.getD i []) = List.replicate 9 0 by
      rw [emptyBoard, getD_replicate_ite, if_pos hi]]
    exact ⟨by simp, fun j hj => by simp [bget_emptyBoard]⟩
  have hwm0 : WFMasks (List.replicate 9 (0 : Nat)) (List.replicate 9 0) (List.replicate 9 0) := by
    refine ⟨by simp, by simp, by simp⟩
  have hcells : ∀ c ∈ cellsRowMajor, c.1 < 9 ∧ c.2 < 9 :=
    fun c hc => mem_cellsRowMajor.mp hc
  unfold init_from_sudoku
  obtain ⟨h1, h2, h3, h4, h5, h6⟩ :=
    initFold_spec sudoku hWF cellsRowMajor
      ⟨emptyBoard, List.replicate 9 0, List.replicate 9 0, List.replicate 9 0⟩ hcells hwb0 hwm0
  have hz : ∀ i : Nat, ((List.replicate 9 (0 : Nat)).getD i 0).testBit = (0 : Nat).testBit := by
    intro i
    rw [getD_replicate_ite]
    by_cases h : i < 9
    · rw [if_pos h]
    · rw [if_neg h]
  refine ⟨h1, h2, ?_, ?_, ?_, ?_⟩
  · intro a ha b hb
    rw [h3 a ha b hb, if_pos (mem_cellsRowMajor.mpr ⟨ha, hb⟩), bget_emptyBoard]
  · intro i hi d
    rw [h4 i hi d]
    have : ((List.replicate 9 (0 : Nat)).getD i 0).testBit d = false := by
      rw [congrFun (hz i) d, Nat.zero_testBit]
    rw [this]
    simp only [Bool.false_eq_true, false_or]
    constructor
    · rintro ⟨c, hc, h1', h2'⟩
      exact ⟨c, mem_rowCells.mpr ⟨h1', (mem_cellsRowMajor.mp hc).2⟩, h2'⟩
    · rintro ⟨c, hc, h2'⟩
      obtain ⟨hc1, hc2⟩ := mem_rowCells.mp hc
      exact ⟨c, mem_cellsRowMajor.mpr ⟨by omega, hc2⟩, hc1, h2'⟩
  · intro j hj d
    rw [h5 j hj d]
    have : ((List.replicate 9 (0 : Nat)).getD j 0).testBit d = false := by
      rw [congrFun (hz j) d, Nat.zero_testBit]
    rw [this]
    simp only [Bool.false_eq_true, false_or]
    constructor
    · rintro ⟨c, hc, h1', h2'⟩
      exact ⟨c, mem_colCells.mpr ⟨h1', (mem_cellsRowMajor.mp hc).1⟩, h2'⟩
    · rintro ⟨c, hc, h2'⟩
      obtain ⟨hc1, hc2⟩ := mem_colCells.mp hc
      exact ⟨c, mem_cellsRowMajor.mpr ⟨hc2, by omega⟩, hc1, h2'⟩
  · intro k hk d
    rw [h6 k hk d]
    have : ((List.replicate 9 (0 : Nat)).getD k 0).testBit d = false := by
      rw [congrFun (hz k) d, Nat.zero_testBit]
    rw [this]
    simp only [Bool.false_eq_true, false_or]
    constructor
    · rintro ⟨c, hc, h1', h2'⟩
      obtain ⟨hc1, hc2⟩ := mem_cellsRowMajor.mp hc
      exact ⟨c, (mem_boxCells hk).mpr ⟨hc1, hc2, h1'⟩, h2'⟩
    · rintro ⟨c, hc, h2'⟩
      obtain ⟨hc1, hc2, hc3⟩ := (mem_boxCells hk).mp hc
      exact ⟨c, mem_cellsRowMajor.mpr ⟨hc1, hc2⟩, hc3, h2'⟩

theorem init_bget_iff_clue {sudoku : Sudoku} (hWF : Sudoku.WF sudoku) {a b d : Nat}
    (ha : a < 9) (hb : b < 9) (hd : 1 ≤ d) :
    bget (init_from_sudoku sudoku).board a b = d ↔
      sudoku.get_solved_value a b = some d := by
  rw [(init_spec sudoku hWF).2.2.1 a ha b hb]
  rcases h : sudoku.get_solved_value a b with _ | v
  · simp only [Option.getD_none]
    constructor
    · intro h'
      omega
    · intro h'
      exact absurd h' (by simp)
  · simp only [Option.getD_some, Option.some_inj]

theorem Inv_initState (sudoku : Sudoku) (hWF : Sudoku.WF sudoku) (hND : NoDupClues sudoku) :
    Inv (initState sudoku) := by
  obtain ⟨h1, h2, h3, h4, h5, h6⟩ := init_spec sudoku hWF
  show Inv ⟨(init_from_sudoku sudoku).board, (init_from_sudoku sudoku).rows,
    (init_from_sudoku sudoku).cols, (init_from_sudoku sudoku).subgrids,
    SolverStats.default, [], false⟩
  unfold Inv
  dsimp only
  refine ⟨h1, h2, ?_, ?_, ?_⟩
  · intro i hi d hd10 hd1
    constructor
    · rw [h4 i hi d]
      constructor
      · rintro ⟨c, hc, hcl⟩
        refine ⟨c, hc, ?_⟩
        obtain ⟨hc1, hc2⟩ := mem_rowCells.mp hc
        exact (init_bget_iff_clue hWF (by omega) hc2 hd1).mpr hcl
      · rintro ⟨c, hc, hcl⟩
        refine ⟨c, hc, ?_⟩
        obtain ⟨hc1, hc2⟩ := mem_rowCells.mp hc
        exact (init_bget_iff_clue hWF (by omega) hc2 hd1).mp hcl
    · rintro c1 hc1 c2 hc2 hv1 hv2
      obtain ⟨h11, h12⟩ := mem_rowCells.mp hc1
      obtain ⟨h21, h22⟩ := mem_rowCells.mp hc2
      refine ((hND d hd10 hd1).1 i hi c1 hc1 c2 hc2 ?_ ?_)
      · exact (init_bget_iff_clue hWF (by omega) h12 hd1).mp hv1
      · exact (init_bget_iff_clue hWF (by omega) h22 hd1).mp hv2
  · intro j hj d hd10 hd1
    constructor
    · rw [h5 j hj d]
      constructor
      · rintro ⟨c, hc, hcl⟩
        refine ⟨c, hc, ?_⟩
        obtain ⟨hc1, hc2⟩ := mem_colCells.mp hc
        exact (init_bget_iff_clue hWF hc2 (by omega) hd1).mpr hcl
      · rintro ⟨c, hc, hcl⟩
        refine ⟨c, hc, ?_⟩
        obtain ⟨hc1, hc2⟩ := mem_colCells.mp hc
        exact (init_bget_iff_clue hWF hc2 (by omega) hd1).mp hcl
    · rintro c1 hc1 c2 hc2 hv1 hv2
      obtain ⟨h11, h12⟩ := mem_colCells.mp hc1
      obtain ⟨h21, h22⟩ := mem_colCells.mp hc2
      refine ((hND d hd10 hd1).2.1 j hj c1 hc1 c2 hc2 ?_ ?_)
      · exact (init_bget_iff_clue hWF h12 (by omega) hd1).mp hv1
      · exact (init_bget_iff_clue hWF h22 (by omega) hd1).mp hv2
  · intro k hk d hd10 hd1
    constructor
    · rw [h6 k hk d]
      constructor
      · rintro ⟨c, hc, hcl⟩
        refine ⟨c, hc, ?_⟩
        obtain ⟨hc1, hc2, hc3⟩ := (mem_boxCells hk).mp hc
        exact (init_bget_iff_clue hWF hc1 hc2 hd1).mpr hcl
      · rintro ⟨c, hc, hcl⟩
        refine ⟨c, hc, ?_⟩
        obtain ⟨hc1, hc2, hc3⟩ := (mem_boxCells hk).mp hc
        exact (init_bget_iff_clue hWF hc1 hc2 hd1).mp hcl
    · rintro c1 hc1 c2 hc2 hv1 hv2
      obtain ⟨h11, h12, h13⟩ := (mem_boxCells hk).mp hc1
      obtain ⟨h21, h22, h23⟩ := (mem_boxCells hk).mp hc2
      refine ((hND d hd10 hd1).2.2 k hk c1 hc1 c2 hc2 ?_ ?_)
      · exact (init_bget_iff_clue hWF h11 h12 hd1).mp hv1
      · exact (init_bget_iff_clue hWF h21 h22 hd1).mp hv2

theorem initFold_none (sudoku : Sudoku) :
    ∀ (cells : List (Nat × Nat)) (st : InitSt),
      (∀ c ∈ cells, sudoku.get_solved_value c.1 c.2 = none) →
      cells.foldl (initStep sudoku) st = st := by
  intro cells
  induction cells with
  | nil =>
    intro st h
    rfl
  | cons c rest ih =>
    intro st h
    rw [List.foldl_cons]
    have hstep : initStep sudoku st c = st := by
      unfold initStep
      rw [h c (List.mem_cons_self _ _)]
    rw [hstep]
    exact ih st (fun c' hc' => h c' (List.mem_cons_of_mem _ hc'))

theorem initState_zeroClues (sudoku : Sudoku)
    (h : ∀ a, a < 9 → ∀ b, b < 9 → sudoku.get_solved_value a b = none) :
    initState sudoku =
      ⟨emptyBoard, List.replicate 9 0, List.replicate 9 0, List.replicate 9 0,
        SolverStats.default, [], false⟩ := by
  unfold initState init_from_sudoku
  rw [initFold_none sudoku cellsRowMajor _ (fun c hc => by
    obtain ⟨h1, h2⟩ := mem_cellsRowMajor.mp hc
    exact h c.1 h1 c.2 h2)]

/-! Unfolding equations for the recursive solver. -/

theorem tryLoop_nil (fa : Bool) (go : SolverState → SolverState) (i j : Nat) (s : SolverState) :
    tryLoop fa go i j [] s = (s, false) := rfl

theorem tryLoop_cons (fa : Bool) (go : SolverState → SolverState) (i j num : Nat)
    (rest : List Nat) (s : SolverState) :
    tryLoop fa go i j (num :: rest) s =
      if is_safe s.rows s.cols s.subgrids i j num then
        (let s2 := go (place i j num s)
         if !s2.solutions.isEmpty && !fa then (s2, true)
         else ((tryLoop fa go i j rest (unplace i j num s2)).1, true))
      else tryLoop fa go i j rest s := rfl

theorem solveRec_zero (co : List (Nat × Nat)) (fa : Bool) (cell_idx depth : Nat)
    (s : SolverState) : solveRec co fa 0 cell_idx depth s = s := rfl

theorem solveRec_succ (co : List (Nat × Nat)) (fa : Bool) (fuel cell_idx depth : Nat)
    (s : SolverState) :
    solveRec co fa (fuel + 1) cell_idx depth s =
      (let current_idx := findNextEmpty co s.board cell_idx
       if current_idx = 81 then pushSolution s
       else
         let c := co.getD current_idx (0, 0)
         let s1 := recordNode co current_idx depth s
         let r := tryLoop fa
           (fun st => solveRec co fa fuel (current_idx + 1) (depth + 1) st)
           c.1 c.2 [1, 2, 3, 4, 5, 6, 7, 8, 9] s1
         if r.2 then r.1
         else { r.1 with stats := { r.1.stats with leaves := r.1.stats.leaves + 1 } }) := rfl

/-! Counting induction: the solution vector only grows by appending, and every
appended solution is accompanied by at least one additional leaf. -/

theorem tryLoop_sols (fa : Bool) (go : SolverState → SolverState) (i j : Nat)
    (hgo : ∀ s', ∃ new, (go s').solutions = s'.solutions ++ new ∧
      s'.stats.leaves + new.length ≤ (go s').stats.leaves) :
    ∀ (nums : List Nat) (s : SolverState),
      ∃ new, ((tryLoop fa go i j nums s).1).solutions = s.solutions ++ new ∧
        s.stats.leaves + new.length ≤ ((tryLoop fa go i j nums s).1).stats.leaves := by
  intro nums
  induction nums with
  | nil =>
    intro s
    exact ⟨[], by simp [tryLoop_nil], by simp [tryLoop_nil]⟩
  | cons num rest ih =>
    intro s
    rw [tryLoop_cons]
    by_cases hsafe : is_safe s.rows s.cols s.subgrids i j num = true
    · rw [if_pos hsafe]
      obtain ⟨new1, hnew1, hle1⟩ := hgo (place i j num s)
      have hps : (place i j num s).solutions = s.solutions := rfl
      have hpl : (place i j num s).stats.leaves = s.stats.leaves := rfl
      rw [hps] at hnew1
      rw [hpl] at hle1
      by_cases hcond : (!(go (place i j num s)).solutions.isEmpty && !fa) = true
      · rw [if_pos hcond]
        exact ⟨new1, hnew1, hle1⟩
      · rw [if_neg hcond]
        obtain ⟨new2, hnew2, hle2⟩ := ih (unplace i j num (go (place i j num s)))
        have hus : (unplace i j num (go (place i j num s))).solutions =
            (go (place i j num s)).solutions := rfl
        have hul : (unplace i j num (go (place i j num s))).stats.leaves =
            (go (place i j num s)).stats.leaves := rfl
        refine ⟨new1 ++ new2, ?_, ?_⟩
        · show (tryLoop fa go i j rest (unplace i j num (go (place i j num s)))).1.solutions =
            s.solutions ++ (new1 ++ new2)
          rw [hnew2, hus, hnew1, List.append_assoc]
        · show s.stats.leaves + (new1 ++ new2).length ≤
            (tryLoop fa go i j rest (unplace i j num (go (place i j num s)))).1.stats.leaves
          rw [hul] at hle2
          rw [List.length_append]
          omega
    · rw [if_neg hsafe]
      exact ih s

theorem solveRec_sols (co : List (Nat × Nat)) (fa : Bool) :
    ∀ (fuel cell_idx depth : Nat) (s : SolverState),
      ∃ new, (solveRec co fa fuel cell_idx depth s).solutions = s.solutions ++ new ∧
        s.stats.leaves + new.length ≤ (solveRec co fa fuel cell_idx depth s).stats.leaves := by
  intro fuel
  induction fuel with
  | zero =>
    intro cell_idx depth s
    exact ⟨[], by simp [solveRec_zero], by simp [solveRec_zero]⟩
  | succ fuel ih =>
    intro cell_idx depth s
    rw [solveRec_succ]
    by_cases h81 : findNextEmpty co s.board cell_idx = 81
    · rw [if_pos h81]
      exact ⟨[boardToSudoku s.board], rfl, by simp [pushSolution]⟩
    · rw [if_neg h81]
      obtain ⟨new, hnew, hle⟩ := tryLoop_sols fa
        (fun st => solveRec co fa fuel (findNextEmpty co s.board cell_idx + 1) (depth + 1) st)
        (co.getD (findNextEmpty co s.board cell_idx) (0, 0)).1
        (co.getD (findNextEmpty co s.board cell_idx) (0, 0)).2
        (fun s' => ih (findNextEmpty co s.board cell_idx + 1) (depth + 1) s')
        [1, 2, 3, 4, 5, 6, 7, 8, 9]
        (recordNode co (findNextEmpty co s.board cell_idx) depth s)
      have hrs : (recordNode co (findNextEmpty co s.board cell_idx) depth s).solutions =
          s.solutions := rfl
      have hrl : (recordNode co (findNextEmpty co s.board cell_idx) depth s).stats.leaves =
          s.stats.leaves := rfl
      rw [hrs] at hnew
      rw [hrl] at hle
      by_cases hr2 : (tryLoop fa
          (fun st => solveRec co fa fuel (findNextEmpty co s.board cell_idx + 1) (depth + 1) st)
          (co.getD (findNextEmpty co s.board cell_idx) (0, 0)).1
          (co.getD (findNextEmpty co s.board cell_idx) (0, 0)).2
          [1, 2, 3, 4, 5, 6, 7, 8, 9]
          (recordNode co (findNextEmpty co s.board cell_idx) depth s)).2 = true
      · rw [if_pos hr2]
        exact ⟨new, hnew, hle⟩
      · rw [if_neg hr2]
        exact ⟨new, hnew, by simp only [List.length_append] at *; omega⟩

/-! Histogram induction: every node increment is matched by exactly one
histogram increment (the write is always in range because the depth never
exceeds the current cell index). -/

theorem sum_set_getD_add_one :
    ∀ (l : List Nat) (k : Nat), k < l.length →
      (l.set k (l.getD k 0 + 1)).sum = l.sum + 1 := by
  intro l
  induction l with
  | nil =>
    intro k hk
    simp at hk
  | cons x xs ih =>
    intro k hk
    cases k with
    | zero =>
      simp [List.sum_cons]
      omega
    | succ k =>
      simp only [List.set_cons_succ, List.sum_cons, List.getD_cons_succ]
      rw [ih k (by simpa using hk)]
      omega

theorem tryLoop_hist (fa : Bool) (go : SolverState → SolverState) (i j : Nat)
    (hgo : ∀ s', s'.stats.tree_width_by_level.length = 81 →
      (go s').stats.tree_width_by_level.length = 81 ∧
      (go s').stats.tree_width_by_level.sum + s'.stats.nodes_explored =
        s'.stats.tree_width_by_level.sum + (go s').stats.nodes_explored) :
    ∀ (nums : List Nat) (s : SolverState), s.stats.tree_width_by_level.length = 81 →
      ((tryLoop fa go i j nums s).1).stats.tree_width_by_level.length = 81 ∧
      ((tryLoop fa go i j nums s).1).stats.tree_width_by_level.sum + s.stats.nodes_explored =
        s.stats.tree_width_by_level.sum +
          ((tryLoop fa go i j nums s).1).stats.nodes_explored := by
  intro nums
  induction nums with
  | nil =>
    intro s hs
    exact ⟨by simpa [tryLoop_nil] using hs, by simp [tryLoop_nil]⟩
  | cons num rest ih =>
    intro s hs
    rw [tryLoop_cons]
    by_cases hsafe : is_safe s.rows s.cols s.subgrids i j num = true
    · rw [if_pos hsafe]
      have hpl : (place i j num s).stats = s.stats := rfl
      obtain ⟨hg1, hg2⟩ := hgo (place i j num s) (by rw [hpl]; exact hs)
      rw [hpl] at hg2
      by_cases hcond : (!(go (place i j num s)).solutions.isEmpty && !fa) = true
      · rw [if_pos hcond]
        exact ⟨hg1, hg2⟩
      · rw [if_neg hcond]
        have hul : (unplace i j num (go (place i j num s))).stats.tree_width_by_level =
            (go (place i j num s)).stats.tree_width_by_level := rfl
        have hun : (unplace i j num (go (place i j num s))).stats.nodes_explored =
            (go (place i j num s)).stats.nodes_explored := rfl
        obtain ⟨hi1, hi2⟩ := ih (unplace i j num (go (place i j num s))) (by rw [hul]; exact hg1)
        rw [hul, hun] at hi2
        refine ⟨?_, ?_⟩
        · show ((tryLoop fa go i j rest
            (unplace i j num (go (place i j num s)))).1).stats.tree_width_by_level.length = 81
          exact hi1
        · show ((tryLoop fa go i j rest
              (unplace i j num (go (place i j num s)))).1).stats.tree_width_by_level.sum +
              s.stats.nodes_explored =
            s.stats.tree_width_by_level.sum +
              ((tryLoop fa go i j rest
                (unplace i j num (go (place i j num s)))).1).stats.nodes_explored
          omega
    · rw [if_neg hsafe]
      exact ih s hs

theorem solveRec_hist (co : List (Nat × Nat)) (fa : Bool) :
    ∀ (fuel cell_idx depth : Nat) (s : SolverState),
      depth ≤ cell_idx → cell_idx ≤ 81 → s.stats.tree_width_by_level.length = 81 →
      (solveRec co fa fuel cell_idx depth s).stats.tree_width_by_level.length = 81 ∧
      (solveRec co fa fuel cell_idx depth s).stats.tree_width_by_level.sum +
          s.stats.nodes_explored =
        s.stats.tree_width_by_level.sum +
          (solveRec co fa fuel cell_idx depth s).stats.nodes_explored := by
  intro fuel
  induction fuel with
  | zero =>
    intro cell_idx depth s hdc hc81 hs
    exact ⟨by simpa [solveRec_zero] using hs, by simp [solveRec_zero]⟩
  | succ fuel ih =>
    intro cell_idx depth s hdc hc81 hs
    rw [solveRec_succ]
    obtain ⟨hfe1, hfe2, _, _⟩ := findNextEmpty_spec co s.board cell_idx hc81
    by_cases h81 : findNextEmpty co s.board cell_idx = 81
    · rw [if_pos h81]
      exact ⟨by simpa [pushSolution] using hs, by simp [pushSolution]⟩
    · rw [if_neg h81]
      have hcur : findNextEmpty co s.board cell_idx < 81 := by omega
      have hdep : depth < 81 := by omega
      have hrn_len : (recordNode co (findNextEmpty co s.board cell_idx) depth
          s).stats.tree_width_by_level.length = 81 := by
        simp only [recordNode]
        rw [List.length_set]
        exact hs
      have hrn_sum : (recordNode co (findNextEmpty co s.board cell_idx) depth
            s).stats.tree_width_by_level.sum =
          s.stats.tree_width_by_level.sum + 1 := by
        simp only [recordNode]
        exact sum_set_getD_add_one _ depth (by omega)
      have hrn_nodes : (recordNode co (findNextEmpty co s.board cell_idx) depth
            s).stats.nodes_explored = s.stats.nodes_explored + 1 := rfl
      obtain ⟨ht1, ht2⟩ := tryLoop_hist fa
        (fun st => solveRec co fa fuel (findNextEmpty co s.board cell_idx + 1) (depth + 1) st)
        (co.getD (findNextEmpty co s.board cell_idx) (0, 0)).1
        (co.getD (findNextEmpty co s.board cell_idx) (0, 0)).2
        (fun s' hs' => ih (findNextEmpty co s.board cell_idx + 1) (depth + 1) s'
          (by omega) (by omega) hs')
        [1, 2, 3, 4, 5, 6, 7, 8, 9]
        (recordNode co (findNextEmpty co s.board cell_idx) depth s)
        hrn_len
      rw [hrn_sum, hrn_nodes] at ht2
      by_cases hr2 : (tryLoop fa
          (fun st => solveRec co fa fuel (findNextEmpty co s.board cell_idx + 1) (depth + 1) st)
          (co.getD (findNextEmpty co s.board cell_idx) (0, 0)).1
          (co.getD (findNextEmpty co s.board cell_idx) (0, 0)).2
          [1, 2, 3, 4, 5, 6, 7, 8, 9]
          (recordNode co (findNextEmpty co s.board cell_idx) depth s)).2 = true
      · rw [if_pos hr2]
        exact ⟨ht1, by omega⟩
      · rw [if_neg hr2]
        refine ⟨by simpa using ht1, ?_⟩
        simp only []
        omega

/-! Bounds induction: with a cell order of length at least 81 the solver never
trips the out-of-bounds instrumentation, and the recorded recursion depth
never exceeds 80. -/

theorem tryLoop_oob (fa : Bool) (go : SolverState → SolverState) (i j : Nat)
    (hgo : ∀ s', (go s').oob = s'.oob ∧
      (go s').stats.max_recursion_depth ≤ max s'.stats.max_recursion_depth 80) :
    ∀ (nums : List Nat) (s : SolverState),
      ((tryLoop fa go i j nums s).1).oob = s.oob ∧
      ((tryLoop fa go i j nums s).1).stats.max_recursion_depth ≤
        max s.stats.max_recursion_depth 80 := by
  intro nums
  induction nums with
  | nil =>
    intro s
    exact ⟨by simp [tryLoop_nil], by simp [tryLoop_nil]⟩
  | cons num rest ih =>
    intro s
    rw [tryLoop_cons]
    by_cases hsafe : is_safe s.rows s.cols s.subgrids i j num = true
    · rw [if_pos hsafe]
      have hpo : (place i j num s).oob = s.oob := rfl
      have hpm : (place i j num s).stats.max_recursion_depth =
          s.stats.max_recursion_depth := rfl
      obtain ⟨hg1, hg2⟩ := hgo (place i j num s)
      rw [hpo] at hg1
      rw [hpm] at hg2
      by_cases hcond : (!(go (place i j num s)).solutions.isEmpty && !fa) = true
      · rw [if_pos hcond]
        exact ⟨hg1, hg2⟩
      · rw [if_neg hcond]
        have huo : (unplace i j num (go (place i j num s))).oob =
            (go (place i j num s)).oob := rfl
        have hum : (unplace i j num (go (place i j num s))).stats.max_recursion_depth =
            (go (place i j num s)).stats.max_recursion_depth := rfl
        obtain ⟨hi1, hi2⟩ := ih (unplace i j num (go (place i j num s)))
        rw [huo, hg1] at hi1
        rw [hum] at hi2
        refine ⟨?_, ?_⟩
        · show ((tryLoop fa go i j rest
            (unplace i j num (go (place i j num s)))).1).oob = s.oob
          exact hi1
        · show ((tryLoop fa go i j rest
              (unplace i j num (go (place i j num s)))).1).stats.max_recursion_depth ≤
            max s.stats.max_recursion_depth 80
          omega
    · rw [if_neg hsafe]
      exact ih s

theorem solveRec_oob (co : List (Nat × Nat)) (fa : Bool) (hlen : 81 ≤ co.length) :
    ∀ (fuel cell_idx depth : Nat) (s : SolverState),
      depth ≤ cell_idx → cell_idx ≤ 81 →
      (solveRec co fa fuel cell_idx depth s).oob = s.oob ∧
      (solveRec co fa fuel cell_idx depth s).stats.max_recursion_depth ≤
        max s.stats.max_recursion_depth 80 := by
  intro fuel
  induction fuel with
  | zero =>
    intro cell_idx depth s hdc hc81
    exact ⟨by simp [solveRec_zero], by simp [solveRec_zero]⟩
  | succ fuel ih =>
    intro cell_idx depth s hdc hc81
    rw [solveRec_succ]
    obtain ⟨hfe1, hfe2, _, _⟩ := findNextEmpty_spec co s.board cell_idx hc81
    by_cases h81 : findNextEmpty co s.board cell_idx = 81
    · rw [if_pos h81]
      exact ⟨rfl, by simp [pushSolution]⟩
    · rw [if_neg h81]
      have hcur : findNextEmpty co s.board cell_idx < 81 := by omega
      have hdep : depth < 81 := by omega
      have hrn_oob : (recordNode co (findNextEmpty co s.board cell_idx) depth s).oob =
          s.oob := by
        simp only [recordNode]
        have d1 : decide (81 ≤ findNextEmpty co s.board cell_idx) = false := by
          rw [decide_eq_false_iff_not]
          omega
        have d2 : decide (co.length ≤ findNextEmpty co s.board cell_idx) = false := by
          rw [decide_eq_false_iff_not]
          omega
        have d3 : decide (81 ≤ depth) = false := by
          rw [decide_eq_false_iff_not]
          omega
        rw [d1, d2, d3]
        simp
      have hrn_max : (recordNode co (findNextEmpty co s.board cell_idx) depth
            s).stats.max_recursion_depth = max s.stats.max_recursion_depth depth := rfl
      obtain ⟨ht1, ht2⟩ := tryLoop_oob fa
        (fun st => solveRec co fa fuel (findNextEmpty co s.board cell_idx + 1) (depth + 1) st)
        (co.getD (findNextEmpty co s.board cell_idx) (0, 0)).1
        (co.getD (findNextEmpty co s.board cell_idx) (0, 0)).2
        (fun s' => ih (findNextEmpty co s.board cell_idx + 1) (depth + 1) s'
          (by omega) (by omega))
        [1, 2, 3, 4, 5, 6, 7, 8, 9]
        (recordNode co (findNextEmpty co s.board cell_idx) depth s)
      rw [hrn_oob] at ht1
      rw [hrn_max] at ht2
      by_cases hr2 : (tryLoop fa
          (fun st => solveRec co fa fuel (findNextEmpty co s.board cell_idx + 1) (depth + 1) st)
          (co.getD (findNextEmpty co s.board cell_idx) (0, 0)).1
          (co.getD (findNextEmpty co s.board cell_idx) (0, 0)).2
          [1, 2, 3, 4, 5, 6, 7, 8, 9]
          (recordNode co (findNextEmpty co s.board cell_idx) depth s)).2 = true
      · rw [if_pos hr2]
        exact ⟨ht1, by omega⟩
      · rw [if_neg hr2]
        refine ⟨by simpa using ht1, ?_⟩
        simp only []
        omega

/-! Characterization of the board-to-`Sudoku` copy made when a solution is
pushed. -/

theorem gridGet_gridSet_eq {g : List (List SCell)} {i j : Nat} (hi : i < g.length)
    (hj : j < (g.getD i []).length) (v : SCell) : gridGet (gridSet g i j v) i j = v := by
  unfold gridGet gridSet
  rw [getD_set_self hi, getD_set_self hj]

theorem gridGet_gridSet_ne {g : List (List SCell)} {i j a c : Nat} (h : i ≠ a ∨ j ≠ c)
    (v : SCell) : gridGet (gridSet g i j v) a c = gridGet g a c := by
  unfold gridGet gridSet
  rcases h with h | h
  · rw [getD_set_ne h]
  · by_cases hia : i = a
    · subst hia
      by_cases hlen : i < g.length
      · rw [getD_set_self hlen, getD_set_ne h]
      · rw [List.set_eq_of_length_le (by omega)]
    · rw [getD_set_ne hia]

theorem gridSet_length (g : List (List SCell)) (i j : Nat) (v : SCell) :
    (gridSet g i j v).length = g.length := by
  simp [gridSet]

theorem gridSet_rowlen (g : List (List SCell)) (i j : Nat) (v : SCell) (a : Nat) :
    ((gridSet g i j v).getD a []).length = (g.getD a []).length := by
  unfold gridSet
  by_cases hia : i = a
  · subst hia
    by_cases hlen : i < g.length
    · rw [getD_set_self hlen, List.length_set]
    · rw [List.set_eq_of_length_le (by omega)]
  · rw [getD_set_ne hia]

theorem b2sFold_spec (b : Board) :
    ∀ (cells : List (Nat × Nat)) (s : Sudoku),
      (∀ c ∈ cells, c.1 < 9 ∧ c.2 < 9) →
      s.grid.length = 9 → (∀ i, i < 9 → (s.grid.getD i []).length = 9) →
      (cells.foldl
          (fun s c =>
            match s.set_cell c.1 c.2 (bget b c.1 c.2) with
            | Except.ok s2 => s2
            | Except.error _ => s) s).grid.length = 9 ∧
      (∀ i, i < 9 →
        ((cells.foldl
            (fun s c =>
              match s.set_cell c.1 c.2 (bget b c.1 c.2) with
              | Except.ok s2 => s2
              | Except.error _ => s) s).grid.getD i []).length = 9) ∧
      (∀ a, a < 9 → ∀ c, c < 9 →
        gridGet (cells.foldl
            (fun s c =>
              match s.set_cell c.1 c.2 (bget b c.1 c.2) with
              | Except.ok s2 => s2
              | Except.error _ => s) s).grid a c =
          if (a, c) ∈ cells ∧ 1 ≤ bget b a c ∧ bget b a c ≤ 9 then [bget b a c]
          else gridGet s.grid a c) := by
  intro cells
  induction cells with
  | nil =>
    intro s hc hlen hrows
    refine ⟨hlen, hrows, ?_⟩
    intro a ha c hc'
    rw [if_neg (by simp)]
    rfl
  | cons c0 rest ih =>
    obtain ⟨ci, cj⟩ := c0
    intro s hc hlen hrows
    have hci : ci < 9 := (hc (ci, cj) (List.mem_cons_self _ _)).1
    have hcj : cj < 9 := (hc (ci, cj) (List.mem_cons_self _ _)).2
    have hrest : ∀ c' ∈ rest, c'.1 < 9 ∧ c'.2 < 9 :=
      fun c' hc' => hc c' (List.mem_cons_of_mem _ hc')
    rw [List.foldl_cons]
    by_cases hv : 1 ≤ bget b ci cj ∧ bget b ci cj ≤ 9
    · have hstep : (match Sudoku.set_cell s ci cj (bget b ci cj) with
          | Except.ok s2 => s2
          | Except.error _ => s) = ⟨gridSet s.grid ci cj [bget b ci cj]⟩ := by
        unfold Sudoku.set_cell
        rw [if_neg (by omega), if_neg (by omega)]
      rw [hstep]
      have hlen' : (gridSet s.grid ci cj [bget b ci cj]).length = 9 := by
        rw [gridSet_length]
        exact hlen
      have hrows' : ∀ i, i < 9 →
          ((gridSet s.grid ci cj [bget b ci cj]).getD i []).length = 9 := by
        intro i hi
        rw [gridSet_rowlen]
        exact hrows i hi
      obtain ⟨ih1, ih2, ih3⟩ := ih ⟨gridSet s.grid ci cj [bget b ci cj]⟩ hrest hlen' hrows'
      refine ⟨ih1, ih2, ?_⟩
      intro a ha c hc'
      rw [ih3 a ha c hc']
      by_cases heq : (a, c) = (ci, cj)
      · obtain ⟨rfl, rfl⟩ := Prod.mk.injEq .. ▸ heq
        by_cases hmem : (a, c) ∈ rest
        · rw [if_pos ⟨hmem, hv⟩, if_pos ⟨List.mem_cons_self _ _, hv⟩]
        · rw [if_neg (fun h => hmem h.1), if_pos ⟨List.mem_cons_self _ _, hv⟩]
          exact gridGet_gridSet_eq (by omega) (by rw [hrows a ha]; omega) _
      · have hne : ci ≠ a ∨ cj ≠ c := cell_ne heq
        rw [show gridGet (Sudoku.mk (gridSet s.grid ci cj [bget b ci cj])).grid a c =
            gridGet (gridSet s.grid ci cj [bget b ci cj]) a c from rfl]
        by_cases hmem : (a, c) ∈ rest
        · by_cases hval : 1 ≤ bget b a c ∧ bget b a c ≤ 9
          · rw [if_pos ⟨hmem, hval⟩, if_pos ⟨List.mem_cons_of_mem _ hmem, hval⟩]
          · rw [if_neg (fun h => hval h.2), if_neg (fun h => hval h.2)]
            exact gridGet_gridSet_ne hne _
        · rw [if_neg (fun h => hmem h.1), if_neg (by
            rintro ⟨hm, hr⟩
            rcases List.mem_cons.mp hm with h | h
            · exact heq h
            · exact hmem h)]
          exact gridGet_gridSet_ne hne _
    · have hstep : (match Sudoku.set_cell s ci cj (bget b ci cj) with
          | Except.ok s2 => s2
          | Except.error _ => s) = s := by
        unfold Sudoku.set_cell
        rw [if_neg (show ¬(9 ≤ ci ∨ 9 ≤ cj) by omega),
          if_pos (show bget b ci cj < 1 ∨ 9 < bget b ci cj by omega)]
      rw [hstep]
      obtain ⟨ih1, ih2, ih3⟩ := ih s hrest hlen hrows
      refine ⟨ih1, ih2, ?_⟩
      intro a ha c hc'
      rw [ih3 a ha c hc']
      by_cases hmem : (a, c) ∈ rest
      · by_cases hval : 1 ≤ bget b a c ∧ bget b a c ≤ 9
        · rw [if_pos ⟨hmem, hval⟩, if_pos ⟨List.mem_cons_of_mem _ hmem, hval⟩]
        · rw [if_neg (fun h => hval h.2), if_neg (fun h => hval h.2)]
      · rw [if_neg (fun h => hmem h.1)]
        by_cases heq : (a, c) = (ci, cj)
        · obtain ⟨rfl, rfl⟩ := Prod.mk.injEq .. ▸ heq
          rw [if_neg (fun h => hv h.2)]
        · rw [if_neg (by
            rintro ⟨hm, hr⟩
            rcases List.mem_cons.mp hm with h | h
            · exact heq h
            · exact hmem h)]

theorem boardToSudoku_gridGet {b : Board}
    (h : ∀ a, a < 9 → ∀ c, c < 9 → 1 ≤ bget b a c ∧ bget b a c ≤ 9) :
    (boardToSudoku b).grid.length = 9 ∧
    (∀ i, i < 9 → ((boardToSudoku b).grid.getD i []).length = 9) ∧
    (∀ a, a < 9 → ∀ c, c < 9 → gridGet (boardToSudoku b).grid a c = [bget b a c]) := by
  have h1 : (Sudoku.new).grid.length = 9 := by simp [Sudoku.new]
  have h2 : ∀ i, i < 9 → ((Sudoku.new).grid.getD i []).length = 9 := by
    intro i hi
    show ((List.replicate 9 (List.replicate 9 ([] : SCell))).getD i []).length = 9
    rw [getD_replicate_ite, if_pos hi]
    simp
  obtain ⟨g1, g2, g3⟩ := b2sFold_spec b cellsRowMajor Sudoku.new
    (fun c hc => mem_cellsRowMajor.mp hc) h1 h2
  refine ⟨g1, g2, ?_⟩
  intro a ha c hc
  unfold boardToSudoku
  rw [g3 a ha c hc, if_pos ⟨mem_cellsRowMajor.mpr ⟨ha, hc⟩, h a ha c hc⟩]

/-! The `check_unit` predicate evaluates to true on a unit of nine distinct
singleton digits. -/

theorem check_unit_go_spec :
    ∀ (vs : List Nat) (seen : List Bool), seen.length = 10 →
      (∀ v ∈ vs, 1 ≤ v ∧ v ≤ 9) → vs.Nodup →
      (∀ v ∈ vs, seen.getD v false = false) →
      ∃ seen', check_unit_go seen (vs.map (fun v => [v])) = some seen' ∧
        seen'.length = 10 ∧
        (∀ t, seen'.getD t false = (seen.getD t false || decide (t ∈ vs))) := by
  intro vs
  induction vs with
  | nil =>
    intro seen hlen hr hnd hsf
    exact ⟨seen, rfl, hlen, fun t => by simp⟩
  | cons v vs ih =>
    intro seen hlen hr hnd hsf
    have hv : 1 ≤ v ∧ v ≤ 9 := hr v (List.mem_cons_self _ _)
    rw [List.map_cons]
    rw [show check_unit_go seen (([v] : SCell) :: vs.map (fun v => [v])) =
        (if ([v] : SCell).length ≠ 1 then none
         else if seen.getD (([v] : SCell).headD 0) false then none
         else check_unit_go (seen.set (([v] : SCell).headD 0) true)
           (vs.map (fun v => [v]))) from rfl]
    rw [if_neg (by simp)]
    rw [show (([v] : SCell).headD 0) = v from rfl]
    rw [hsf v (List.mem_cons_self _ _), if_neg (by simp)]
    have hvnotin := (List.nodup_cons.mp hnd).1
    have hnd' := (List.nodup_cons.mp hnd).2
    have hlen' : (seen.set v true).length = 10 := by simp [hlen]
    have hsf' : ∀ w ∈ vs, (seen.set v true).getD w false = false := by
      intro w hw
      rw [getD_set_ne (fun h => hvnotin (by rw [h]; exact hw))]
      exact hsf w (List.mem_cons_of_mem _ hw)
    obtain ⟨seen', he, hlen'', hchar⟩ :=
      ih (seen.set v true) hlen' (fun w hw => hr w (List.mem_cons_of_mem _ hw)) hnd' hsf'
    refine ⟨seen', he, hlen'', ?_⟩
    intro t
    rw [hchar t]
    by_cases htv : t = v
    · subst htv
      rw [getD_set_self (by omega)]
      rw [hsf t (List.mem_cons_self _ _)]
      simp
    · rw [getD_set_ne (fun h => htv h.symm)]
      have : decide (t ∈ v :: vs) = decide (t ∈ vs) :=
        decide_eq_decide.mpr (by rw [List.mem_cons]; tauto)
      rw [this]

theorem all_drop_take {l : List Bool} (hlen : l.length = 10) :
    (((l.drop 1).take 9).all (fun b => b) = true) ↔
      ∀ t, 1 ≤ t → t < 10 → l.getD t false = true := by
  rw [List.all_eq_true]
  constructor
  · intro h t ht1 ht10
    have hmem : l.getD t false ∈ (l.drop 1).take 9 := by
      rw [List.mem_iff_getElem]
      refine ⟨t - 1, by simp [hlen]; omega, ?_⟩
      rw [List.getElem_take, List.getElem_drop]
      rw [List.getD_eq_getElem?_getD, List.getElem?_eq_getElem (by omega)]
      congr 1
      omega
    exact h _ hmem
  · intro h x hx
    rw [List.mem_iff_getElem] at hx
    obtain ⟨k, hk, hkx⟩ := hx
    have hk' : k < 9 := by
      simp [hlen] at hk
      omega
    have hx' : x = l.getD (1 + k) false := by
      rw [← hkx, List.getElem_take, List.getElem_drop]
      rw [List.getD_eq_getElem?_getD, List.getElem?_eq_getElem (by omega)]
      rfl
    rw [hx']
    exact h (1 + k) (by omega) (by omega)

theorem mem_of_nodup_nine {vs : List Nat} (hlen : vs.length = 9) (hnd : vs.Nodup)
    (hr : ∀ v ∈ vs, 1 ≤ v ∧ v ≤ 9) : ∀ t, 1 ≤ t → t ≤ 9 → t ∈ vs := by
  intro t ht1 ht9
  classical
  have hsub : vs.toFinset ⊆ Finset.Icc 1 9 := by
    intro v hv
    rw [List.mem_toFinset] at hv
    rw [Finset.mem_Icc]
    exact hr v hv
  have hc1 : vs.toFinset.card = 9 := by
    rw [List.toFinset_card_of_nodup hnd]
    exact hlen
  have hc2 : (Finset.Icc 1 9).card = 9 := by
    rw [Nat.card_Icc]
  have heq : vs.toFinset = Finset.Icc 1 9 :=
    Finset.eq_of_subset_of_card_le hsub (by omega)
  rw [← List.mem_toFinset, heq, Finset.mem_Icc]
  exact ⟨ht1, ht9⟩

theorem check_unit_map_singleton {vs : List Nat} (hlen : vs.length = 9) (hnd : vs.Nodup)
    (hr : ∀ v ∈ vs, 1 ≤ v ∧ v ≤ 9) :
    check_unit (vs.map (fun v => [v])) = true := by
  have hseen : (List.replicate 10 false).length = 10 := by simp
  have hsf : ∀ v ∈ vs, (List.replicate 10 false).getD v false = false := by
    intro v hv
    rw [getD_replicate_ite]
    by_cases h : v < 10
    · rw [if_pos h]
    · rw [if_neg h]
  obtain ⟨seen', he, hlen', hchar⟩ := check_unit_go_spec vs (List.replicate 10 false) hseen hr hnd hsf
  unfold check_unit
  rw [he]
  refine (all_drop_take hlen').mpr ?_
  intro t ht1 ht10
  rw [hchar t, getD_replicate_ite, if_pos ht10]
  have : t ∈ vs := mem_of_nodup_nine hlen hnd hr t ht1 (by omega)
  simp [this]

/-- The board pushed as a solution, read back through `check_unit`: a fully
filled valid grid converts to a `Sudoku` that `is_solved` accepts. -/
theorem is_solved_boardToSudoku {b : Board} (hvg : ValidGrid b) :
    (boardToSudoku b).is_solved = true := by
  obtain ⟨hrange, huniq⟩ := hvg
  obtain ⟨g1, g2, g3⟩ := boardToSudoku_gridGet hrange
  unfold Sudoku.is_solved
  rw [Bool.and_eq_true, Bool.and_eq_true]
  refine ⟨⟨?_, ?_⟩, ?_⟩
  · rw [List.all_eq_true]
    intro i hi'
    have hi : i < 9 := List.mem_range.mp hi'
    have hunit : rowUnit (boardToSudoku b) i =
        ((List.range 9).map (fun j => bget b i j)).map (fun v => [v]) := by
      unfold rowUnit
      rw [List.map_map]
      refine List.map_congr_left ?_
      intro j hj
      exact g3 i hi j (List.mem_range.mp hj)
    rw [hunit]
    refine check_unit_map_singleton (by simp) ?_ ?_
    · refine List.Nodup.map_on ?_ (List.nodup_range 9)
      intro j1 hj1 j2 hj2 hval
      have hj1' := List.mem_range.mp hj1
      have hj2' := List.mem_range.mp hj2
      have hd1 := (hrange i hi j1 hj1').1
      have hd9 := (hrange i hi j1 hj1').2
      have hp := (huniq (bget b i j1) (by omega) hd1).1 i hi
        (i, j1) (mem_rowCells.mpr ⟨rfl, hj1'⟩)
        (i, j2) (mem_rowCells.mpr ⟨rfl, hj2'⟩) rfl hval.symm
      exact congrArg Prod.snd hp
    · intro v hv
      rw [List.mem_map] at hv
      obtain ⟨j, hj, rfl⟩ := hv
      exact hrange i hi j (List.mem_range.mp hj)
  · rw [List.all_eq_true]
    intro j hj'
    have hj : j < 9 := List.mem_range.mp hj'
    have hunit : colUnit (boardToSudoku b) j =
        ((List.range 9).map (fun i => bget b i j)).map (fun v => [v]) := by
      unfold colUnit
      rw [List.map_map]
      refine List.map_congr_left ?_
      intro i hi
      exact g3 i (List.mem_range.mp hi) j hj
    rw [hunit]
    refine check_unit_map_singleton (by simp) ?_ ?_
    · refine List.Nodup.map_on ?_ (List.nodup_range 9)
      intro i1 hi1 i2 hi2 hval
      have hi1' := List.mem_range.mp hi1
      have hi2' := List.mem_range.mp hi2
      have hd1 := (hrange i1 hi1' j hj).1
      have hd9 := (hrange i1 hi1' j hj).2
      have hp := (huniq (bget b i1 j) (by omega) hd1).2.1 j hj
        (i1, j) (mem_colCells.mpr ⟨rfl, hi1'⟩)
        (i2, j) (mem_colCells.mpr ⟨rfl, hi2'⟩) rfl hval.symm
      exact congrArg Prod.fst hp
    · intro v hv
      rw [List.mem_map] at hv
      obtain ⟨i, hi, rfl⟩ := hv
      exact hrange i (List.mem_range.mp hi) j hj
  · rw [List.all_eq_true]
    intro bi hbi'
    have hbi : bi < 3 := List.mem_range.mp hbi'
    rw [List.all_eq_true]
    intro bj hbj'
    have hbj : bj < 3 := List.mem_range.mp hbj'
    have hflat : boxUnit (boardToSudoku b) bi bj =
        (List.range 9).map (fun t => gridGet (boardToSudoku b).grid (bi*3 + t/3) (bj*3 + t%3)) := by
      unfold boxUnit
      rfl
    have hunit : boxUnit (boardToSudoku b) bi bj =
        ((List.range 9).map (fun t => bget b (bi*3 + t/3) (bj*3 + t%3))).map (fun v => [v]) := by
      rw [hflat, List.map_map]
      refine List.map_congr_left ?_
      intro t ht
      have ht' := List.mem_range.mp ht
      exact g3 _ (by omega) _ (by omega)
    rw [hunit]
    refine check_unit_map_singleton (by simp) ?_ ?_
    · refine List.Nodup.map_on ?_ (List.nodup_range 9)
      intro t1 ht1 t2 ht2 hval
      have ht1' := List.mem_range.mp ht1
      have ht2' := List.mem_range.mp ht2
      have hd1 := (hrange (bi*3 + t1/3) (by omega) (bj*3 + t1%3) (by omega)).1
      have hd9 := (hrange (bi*3 + t1/3) (by omega) (bj*3 + t1%3) (by omega)).2
      have hk9 : bi * 3 + bj < 9 := by omega
      have hp := (huniq (bget b (bi*3 + t1/3) (bj*3 + t1%3)) (by omega) hd1).2.2
        (bi * 3 + bj) hk9
        (bi*3 + t1/3, bj*3 + t1%3)
        ((mem_boxCells hk9).mpr ⟨by omega, by omega, by omega⟩)
        (bi*3 + t2/3, bj*3 + t2%3)
        ((mem_boxCells hk9).mpr ⟨by omega, by omega, by omega⟩)
        rfl hval.symm
      rw [Prod.mk.injEq] at hp
      omega
    · intro v hv
      rw [List.mem_map] at hv
      obtain ⟨t, ht, rfl⟩ := hv
      have ht' := List.mem_range.mp ht
      exact hrange _ (by omega) _ (by omega)

/-! Main soundness induction: the invariant is preserved through the whole
search, cells that are filled on entry are never modified, and every solution
the search appends is a valid completed grid. -/

/-- Cells filled at the first state keep their value at the second board. -/
def FramePres (b b' : Board) : Prop :=
  ∀ a c, bget b a c ≠ 0 → bget b' a c = bget b a c

/-- Every solution present in `s'` was already in `s` or is the copy of a
fully filled valid grid extending the filled cells of `s`. -/
def SolsSound (s s' : SolverState) : Prop :=
  ∀ sol ∈ s'.solutions, sol ∈ s.solutions ∨
    ∃ g : Board, sol = boardToSudoku g ∧ ValidGrid g ∧ FramePres s.board g ∧
      Sudoku.is_solved (boardToSudoku g) = true

theorem ValidGrid_of_full {b : Board} {rows cols subs : List Nat}
    (hwb : WFBoard b) (hfull : ∀ a, a < 9 → ∀ c, c < 9 → bget b a c ≠ 0)
    (hmc : masksConsistent b rows cols subs) : ValidGrid b := by
  obtain ⟨hr, hc, hb⟩ := hmc
  refine ⟨?_, ?_⟩
  · intro a ha c hc'
    have h9 := (hwb.2 a ha).2 c hc'
    have hne := hfull a ha c hc'
    omega
  · intro d hd10 hd1
    exact ⟨fun i hi => ((hr i hi) d hd10 hd1).2,
           fun j hj => ((hc j hj) d hd10 hd1).2,
           fun k hk => ((hb k hk) d hd10 hd1).2⟩

theorem fullBoard_of {co : List (Nat × Nat)} (hcov : coversGrid co) {b : Board}
    (hpf : prefixFilled co b 81) : ∀ a, a < 9 → ∀ c, c < 9 → bget b a c ≠ 0 := by
  intro a ha c hc
  have hmem := hcov a ha c hc
  rw [List.mem_iff_getElem] at hmem
  obtain ⟨k, hk, hkc⟩ := hmem
  have hk81 : k < 81 := by
    simp [List.length_take] at hk
    omega
  have hklen : k < co.length := by
    simp [List.length_take] at hk
    omega
  have hco_k : co.getD k (0, 0) = (a, c) := by
    rw [List.getD_eq_getElem?_getD, List.getElem?_eq_getElem hklen]
    rw [← hkc, List.getElem_take]
    rfl
  have := hpf k hk81
  rw [hco_k] at this
  exact this

theorem tryLoop_main (co : List (Nat × Nat)) (fa : Bool) (go : SolverState → SolverState)
    (i j cur : Nat) (hc : co.getD cur (0, 0) = (i, j)) (hi : i < 9) (hj : j < 9)
    (hgo : ∀ s', Inv s' → prefixFilled co s'.board (cur + 1) →
      FramePres s'.board (go s').board ∧ Inv (go s') ∧ SolsSound s' (go s')) :
    ∀ (nums : List Nat) (s : SolverState), (∀ n ∈ nums, 1 ≤ n ∧ n ≤ 9) →
      Inv s → prefixFilled co s.board cur → bget s.board i j = 0 →
      FramePres s.board ((tryLoop fa go i j nums s).1).board ∧
      Inv ((tryLoop fa go i j nums s).1) ∧
      SolsSound s ((tryLoop fa go i j nums s).1) := by
  intro nums
  induction nums with
  | nil =>
    intro s hn hinv hpf hz
    rw [tryLoop_nil]
    exact ⟨fun a c h => rfl, hinv, fun sol hs => Or.inl hs⟩
  | cons num rest ih =>
    intro s hn hinv hpf hz
    have hnum := hn num (List.mem_cons_self _ _)
    have hrest : ∀ n ∈ rest, 1 ≤ n ∧ n ≤ 9 :=
      fun n hn' => hn n (List.mem_cons_of_mem _ hn')
    rw [tryLoop_cons]
    by_cases hsafe : is_safe s.rows s.cols s.subgrids i j num = true
    · rw [if_pos hsafe]
      have hinv1 : Inv (place i j num s) := Inv_place hi hj hnum.1 hnum.2 hz hsafe hinv
      have hpb : (place i j num s).board = bset s.board i j num := rfl
      have hb_i : i < s.board.length := by rw [hinv.1.1]; exact hi
      have hb_j : j < (s.board.getD i []).length := by rw [(hinv.1.2 i hi).1]; exact hj
      have hplaced : bget (place i j num s).board i j = num := by
        rw [hpb]
        exact bget_bset_eq hb_i hb_j num
      have hframe1 : FramePres s.board (place i j num s).board := by
        intro a c hne
        rw [hpb]
        refine bget_bset_ne ?_ num
        by_cases h : (a, c) = (i, j)
        · obtain ⟨rfl, rfl⟩ := Prod.mk.injEq .. ▸ h
          exact absurd hz hne
        · exact cell_ne h
      have hpf1 : prefixFilled co (place i j num s).board (cur + 1) := by
        intro k hk
        by_cases hkc : k = cur
        · subst hkc
          rw [hc]
          show bget (place i j num s).board i j ≠ 0
          rw [hplaced]
          omega
        · have hk' : k < cur := by omega
          rw [hframe1 _ _ (hpf k hk')]
          exact hpf k hk'
      obtain ⟨hgf, hginv, hgsols⟩ := hgo (place i j num s) hinv1 hpf1
      by_cases hcond : (!(go (place i j num s)).solutions.isEmpty && !fa) = true
      · rw [if_pos hcond]
        refine ⟨?_, hginv, ?_⟩
        · intro a c hne
          rw [hgf a c (by rw [hframe1 a c hne]; exact hne)]
          exact hframe1 a c hne
        · intro sol hs
          rcases hgsols sol hs with h | ⟨g, h1, h2, h3, h4⟩
          · exact Or.inl h
          · refine Or.inr ⟨g, h1, h2, ?_, h4⟩
            intro a c hne
            rw [h3 a c (by rw [hframe1 a c hne]; exact hne)]
            exact hframe1 a c hne
      · rw [if_neg hcond]
        have hval2 : bget (go (place i j num s)).board i j = num := by
          rw [hgf i j (by rw [hplaced]; omega)]
          exact hplaced
        have hinv3 : Inv (unplace i j num (go (place i j num s))) :=
          Inv_unplace hi hj hnum.1 hnum.2 hval2 hginv
        have hub : (unplace i j num (go (place i j num s))).board =
            bset (go (place i j num s)).board i j 0 := rfl
        have hz3 : bget (unplace i j num (go (place i j num s))).board i j = 0 := by
          rw [hub]
          exact bget_bset_eq (by rw [hginv.1.1]; exact hi)
            (by rw [(hginv.1.2 i hi).1]; exact hj) 0
        have hframe3 : ∀ a c, bget s.board a c ≠ 0 →
            bget (unplace i j num (go (place i j num s))).board a c = bget s.board a c := by
          intro a c hne
          have hne_ij : (a, c) ≠ (i, j) := by
            intro h
            obtain ⟨rfl, rfl⟩ := Prod.mk.injEq .. ▸ h
            exact hne hz
          rw [hub, bget_bset_ne (cell_ne hne_ij) 0]
          rw [hgf a c (by rw [hframe1 a c hne]; exact hne)]
          exact hframe1 a c hne
        have hpf3 : prefixFilled co (unplace i j num (go (place i j num s))).board cur := by
          intro k hk
          rw [hframe3 _ _ (hpf k hk)]
          exact hpf k hk
        obtain ⟨hf4, hinv4, hsols4⟩ :=
          ih (unplace i j num (go (place i j num s))) hrest hinv3 hpf3 hz3
        refine ⟨?_, ?_, ?_⟩
        · show FramePres s.board
            ((tryLoop fa go i j rest (unplace i j num (go (place i j num s)))).1).board
          intro a c hne
          rw [hf4 a c (by rw [hframe3 a c hne]; exact hne)]
          exact hframe3 a c hne
        · show Inv ((tryLoop fa go i j rest (unplace i j num (go (place i j num s)))).1)
          exact hinv4
        · show SolsSound s
            ((tryLoop fa go i j rest (unplace i j num (go (place i j num s)))).1)
          intro sol hs
          rcases hsols4 sol hs with h | ⟨g, h1, h2, h3, h4⟩
          · have hs2mem : sol ∈ (go (place i j num s)).solutions := h
            rcases hgsols sol hs2mem with h' | ⟨g, h1, h2, h3, h4⟩
            · exact Or.inl h'
            · refine Or.inr ⟨g, h1, h2, ?_, h4⟩
              intro a c hne
              rw [h3 a c (by rw [hframe1 a c hne]; exact hne)]
              exact hframe1 a c hne
          · refine Or.inr ⟨g, h1, h2, ?_, h4⟩
            intro a c hne
            rw [h3 a c (by rw [hframe3 a c hne]; exact hne)]
            exact hframe3 a c hne
    · rw [if_neg hsafe]
      exact ih s hrest hinv hpf hz

theorem solveRec_main (co : List (Nat × Nat)) (fa : Bool)
    (hco : coordsOK co) (hcov : coversGrid co) :
    ∀ (fuel cell_idx depth : Nat) (s : SolverState),
      Inv s → prefixFilled co s.board cell_idx → cell_idx ≤ 81 →
      FramePres s.board (solveRec co fa fuel cell_idx depth s).board ∧
      Inv (solveRec co fa fuel cell_idx depth s) ∧
      SolsSound s (solveRec co fa fuel cell_idx depth s) := by
  intro fuel
  induction fuel with
  | zero =>
    intro cell_idx depth s hinv hpf hc81
    rw [solveRec_zero]
    exact ⟨fun a c h => rfl, hinv, fun sol hs => Or.inl hs⟩
  | succ fuel ih =>
    intro cell_idx depth s hinv hpf hc81
    rw [solveRec_succ]
    obtain ⟨hfe1, hfe2, hfe3, hfe4⟩ := findNextEmpty_spec co s.board cell_idx hc81
    by_cases h81 : findNextEmpty co s.board cell_idx = 81
    · rw [if_pos h81]
      have hpf81 : prefixFilled co s.board 81 := by
        intro k hk
        by_cases hkc : k < cell_idx
        · exact hpf k hkc
        · exact hfe3 k (by omega) (by omega)
      have hfull := fullBoard_of hcov hpf81
      have hvg : ValidGrid s.board := ValidGrid_of_full hinv.1 hfull hinv.2.2
      refine ⟨fun a c h => rfl, hinv, ?_⟩
      intro sol hs
      rcases List.mem_append.mp hs with h | h
      · exact Or.inl h
      · have hsol : sol = boardToSudoku s.board := by simpa using h
        exact Or.inr ⟨s.board, hsol, hvg, fun a c h' => rfl, is_solved_boardToSudoku hvg⟩
    · rw [if_neg h81]
      have hcur : findNextEmpty co s.board cell_idx < 81 := by omega
      obtain ⟨hci, hcj⟩ := coordsOK_getD hco (findNextEmpty co s.board cell_idx)
      have hrpf : prefixFilled co
          (recordNode co (findNextEmpty co s.board cell_idx) depth s).board
          (findNextEmpty co s.board cell_idx) := by
        intro k hk
        show bget s.board (co.getD k (0, 0)).1 (co.getD k (0, 0)).2 ≠ 0
        by_cases hkc : k < cell_idx
        · exact hpf k hkc
        · exact hfe3 k (by omega) (by omega)
      have hz : bget (recordNode co (findNextEmpty co s.board cell_idx) depth s).board
          (co.getD (findNextEmpty co s.board cell_idx) (0, 0)).1
          (co.getD (findNextEmpty co s.board cell_idx) (0, 0)).2 = 0 := hfe4 hcur
      obtain ⟨hf, hinv', hsols⟩ := tryLoop_main co fa
        (fun st => solveRec co fa fuel (findNextEmpty co s.board cell_idx + 1) (depth + 1) st)
        (co.getD (findNextEmpty co s.board cell_idx) (0, 0)).1
        (co.getD (findNextEmpty co s.board cell_idx) (0, 0)).2
        (findNextEmpty co s.board cell_idx)
        (Prod.mk.eta).symm hci hcj
        (fun s' hinv'' hpf'' => ih (findNextEmpty co s.board cell_idx + 1) (depth + 1) s'
          hinv'' hpf'' (by omega))
        [1, 2, 3, 4, 5, 6, 7, 8, 9]
        (recordNode co (findNextEmpty co s.board cell_idx) depth s)
        (by
          intro n hn
          simp only [List.mem_cons, List.not_mem_nil, or_false] at hn
          rcases hn with rfl | rfl | rfl | rfl | rfl | rfl | rfl | rfl | rfl
          all_goals omega)
        hinv hrpf hz
      by_cases hr2 : (tryLoop fa
          (fun st => solveRec co fa fuel (findNextEmpty co s.board cell_idx + 1) (depth + 1) st)
          (co.getD (findNextEmpty co s.board cell_idx) (0, 0)).1
          (co.getD (findNextEmpty co s.board cell_idx) (0, 0)).2
          [1, 2, 3, 4, 5, 6, 7, 8, 9]
          (recordNode co (findNextEmpty co s.board cell_idx) depth s)).2 = true
      · rw [if_pos hr2]
        exact ⟨hf, hinv', hsols⟩
      · rw [if_neg hr2]
        exact ⟨hf, ⟨hinv'.1, hinv'.2.1, hinv'.2.2⟩, hsols⟩

/-! Helpers for fully given puzzles. -/

theorem check_unit_go_lengths :
    ∀ (L : List SCell) (seen seen' : List Bool), check_unit_go seen L = some seen' →
      ∀ cell ∈ L, cell.length = 1 := by
  intro L
  induction L with
  | nil =>
    intro seen seen' h cell hc
    exact absurd hc (List.not_mem_nil _)
  | cons c rest ih =>
    intro seen seen' h cell hc
    rw [show check_unit_go seen (c :: rest) =
        (if c.length ≠ 1 then none
         else if seen.getD (c.headD 0) false then none
         else check_unit_go (seen.set (c.headD 0) true) rest) from rfl] at h
    by_cases hlen : c.length ≠ 1
    · rw [if_pos hlen] at h
      exact absurd h (by simp)
    · rw [if_neg hlen] at h
      by_cases hseen : seen.getD (c.headD 0) false
      · rw [if_pos hseen] at h
        exact absurd h (by simp)
      · rw [if_neg hseen] at h
        rcases List.mem_cons.mp hc with rfl | hc'
        · omega
        · exact ih _ _ h cell hc'

theorem check_unit_lengths {L : List SCell} (h : check_unit L = true) :
    ∀ cell ∈ L, cell.length = 1 := by
  unfold check_unit at h
  rcases hgo : check_unit_go (List.replicate 10 false) L with _ | seen'
  · rw [hgo] at h
    exact absurd h (by simp)
  · exact check_unit_go_lengths L _ _ hgo

theorem solved_all_cells {sudoku : Sudoku} (h : sudoku.is_solved = true) :
    ∀ i, i < 9 → ∀ j, j < 9 → (gridGet sudoku.grid i j).length = 1 := by
  intro i hi j hj
  unfold Sudoku.is_solved at h
  rw [Bool.and_eq_true, Bool.and_eq_true] at h
  have hrow := List.all_eq_true.mp h.1.1 i (List.mem_range.mpr hi)
  refine check_unit_lengths hrow (gridGet sudoku.grid i j) ?_
  unfold rowUnit
  exact List.mem_map.mpr ⟨j, List.mem_range.mpr hj, rfl⟩

theorem solved_clue {sudoku : Sudoku} (hWF : Sudoku.WF sudoku) (h : sudoku.is_solved = true) :
    ∀ i, i < 9 → ∀ j, j < 9 → ∃ v, sudoku.get_solved_value i j = some v ∧ 1 ≤ v ∧ v ≤ 9 := by
  intro i hi j hj
  have hlen := solved_all_cells h i hi j hj
  refine ⟨(gridGet sudoku.grid i j).headD 0, ?_, ?_⟩
  · unfold Sudoku.get_solved_value
    rw [if_pos hlen]
  · obtain ⟨x, hx⟩ := List.length_eq_one.mp hlen
    rw [hx]
    exact hWF i hi j hj x (by rw [hx]; exact List.mem_singleton_self _)

theorem run_search_filled (sudoku : Sudoku) (co : List (Nat × Nat)) (fa : Bool)
    (hpf : prefixFilled co (initState sudoku).board 81) :
    run_search sudoku co fa = pushSolution (initState sudoku) := by
  unfold run_search
  rw [show (82 : Nat) = 81 + 1 from rfl, solveRec_succ]
  rw [findNextEmpty_of_filled co _ 0 (by omega) hpf]
  rfl

/-! Concrete boards used as inputs for the claims. -/

/-- The default cell order (row-major scan). -/
def defaultCO : List (Nat × Nat) := strategyCellOrder SearchStrategy.Default

/-- A fully and validly solved grid, as a puzzle. -/
def solvedSudoku : Sudoku := ⟨[
  [[1], [2], [3], [4], [5], [6], [7], [8], [9]],
  [[4], [5], [6], [7], [8], [9], [1], [2], [3]],
  [[7], [8], [9], [1], [2], [3], [4], [5], [6]],
  [[2], [3], [4], [5], [6], [7], [8], [9], [1]],
  [[5], [6], [7], [8], [9], [1], [2], [3], [4]],
  [[8], [9], [1], [2], [3], [4], [5], [6], [7]],
  [[3], [4], [5], [6], [7], [8], [9], [1], [2]],
  [[6], [7], [8], [9], [1], [2], [3], [4], [5]],
  [[9], [1], [2], [3], [4], [5], [6], [7], [8]]]⟩

/-- `solvedSudoku` with its first cell left empty. -/
def almostSudoku : Sudoku := ⟨[
  [[], [2], [3], [4], [5], [6], [7], [8], [9]],
  [[4], [5], [6], [7], [8], [9], [1], [2], [3]],
  [[7], [8], [9], [1], [2], [3], [4], [5], [6]],
  [[2], [3], [4], [5], [6], [7], [8], [9], [1]],
  [[5], [6], [7], [8], [9], [1], [2], [3], [4]],
  [[8], [9], [1], [2], [3], [4], [5], [6], [7]],
  [[3], [4], [5], [6], [7], [8], [9], [1], [2]],
  [[6], [7], [8], [9], [1], [2], [3], [4], [5]],
  [[9], [1], [2], [3], [4], [5], [6], [7], [8]]]⟩

/-- A fully given but invalid puzzle: digit 1 appears twice in the first row.
Having 81 clues, the scan reaches 81 immediately and the board is pushed as a
"solution" although it violates the uniqueness invariant. -/
def cexSudoku : Sudoku := ⟨[
  [[1], [1], [3], [4], [5], [6], [7], [8], [9]],
  [[4], [5], [6], [7], [8], [9], [1], [2], [3]],
  [[7], [8], [9], [1], [2], [3], [4], [5], [6]],
  [[2], [3], [4], [5], [6], [7], [8], [9], [1]],
  [[5], [6], [7], [8], [9], [1], [2], [3], [4]],
  [[8], [9], [1], [2], [3], [4], [5], [6], [7]],
  [[3], [4], [5], [6], [7], [8], [9], [1], [2]],
  [[6], [7], [8], [9], [1], [2], [3], [4], [5]],
  [[9], [1], [2], [3], [4], [5], [6], [7], [8]]]⟩

/-- A duplicate-free but unsolvable puzzle: the nine clues surrounding the
empty cell (0,0) cover all digits 1-9 between its row, column and box. -/
def unsatSudoku : Sudoku := ⟨[
  [[], [2], [3], [4], [5], [], [], [], []],
  [[6], [1], [], [], [], [], [], [], []],
  [[7], [], [], [], [], [], [], [], []],
  [[8], [], [], [], [], [], [], [], []],
  [[9], [], [], [], [], [], [], [], []],
  [[], [], [], [], [], [], [], [], []],
  [[], [], [], [], [], [], [], [], []],
  [[], [], [], [], [], [], [], [], []],
  [[], [], [], [], [], [], [], [], []]]⟩

theorem unsat_no_completion : ¬ ∃ g : Board, IsCompletion unsatSudoku g := by
  rintro ⟨g, ⟨hrange, huniq⟩, hagree⟩
  have h00 := hrange 0 (by omega) 0 (by omega)
  have hc1 : bget g 0 1 = 2 := hagree 0 (by omega) 1 (by omega) 2 (by decide)
  have hc2 : bget g 0 2 = 3 := hagree 0 (by omega) 2 (by omega) 3 (by decide)
  have hc3 : bget g 0 3 = 4 := hagree 0 (by omega) 3 (by omega) 4 (by decide)
  have hc4 : bget g 0 4 = 5 := hagree 0 (by omega) 4 (by omega) 5 (by decide)
  have hc5 : bget g 1 0 = 6 := hagree 1 (by omega) 0 (by omega) 6 (by decide)
  have hc6 : bget g 2 0 = 7 := hagree 2 (by omega) 0 (by omega) 7 (by decide)
  have hc7 : bget g 3 0 = 8 := hagree 3 (by omega) 0 (by omega) 8 (by decide)
  have hc8 : bget g 4 0 = 9 := hagree 4 (by omega) 0 (by omega) 9 (by decide)
  have hc9 : bget g 1 1 = 1 := hagree 1 (by omega) 1 (by omega) 1 (by decide)
  have hrow : ∀ jj, jj < 9 → bget g 0 jj = bget g 0 0 → jj = 0 := by
    intro jj hjj he
    have hd1 := h00.1
    have := (huniq (bget g 0 0) (by omega) (by omega)).1 0 (by omega)
      (0, jj) (mem_rowCells.mpr ⟨rfl, hjj⟩) (0, 0) (mem_rowCells.mpr ⟨rfl, by omega⟩) he rfl
    rw [Prod.mk.injEq] at this
    omega
  have hcol : ∀ ii, ii < 9 → bget g ii 0 = bget g 0 0 → ii = 0 := by
    intro ii hii he
    have := (huniq (bget g 0 0) (by omega) (by omega)).2.1 0 (by omega)
      (ii, 0) (mem_colCells.mpr ⟨rfl, hii⟩) (0, 0) (mem_colCells.mpr ⟨rfl, by omega⟩) he rfl
    rw [Prod.mk.injEq] at this
    omega
  have hbox : bget g 1 1 = bget g 0 0 → False := by
    intro he
    have := (huniq (bget g 0 0) (by omega) (by omega)).2.2 0 (by omega)
      (1, 1) ((mem_boxCells (by omega)).mpr ⟨by omega, by omega, by omega⟩)
      (0, 0) ((mem_boxCells (by omega)).mpr ⟨by omega, by omega, by omega⟩) he rfl
    rw [Prod.mk.injEq] at this
    omega
  rcases Nat.lt_or_ge (bget g 0 0) 2 with h | h
  · have : bget g 0 0 = 1 := by omega
    exact hbox (by omega)
  · rcases Nat.lt_or_ge (bget g 0 0) 6 with h' | h'
    · rcases Nat.lt_or_ge (bget g 0 0) 3 with h2 | h2
      · have := hrow 1 (by omega) (by omega)
        omega
      · rcases Nat.lt_or_ge (bget g 0 0) 4 with h3 | h3
        · have := hrow 2 (by omega) (by omega)
          omega
        · rcases Nat.lt_or_ge (bget g 0 0) 5 with h4 | h4
          · have := hrow 3 (by omega) (by omega)
            omega
          · have := hrow 4 (by omega) (by omega)
            omega
    · rcases Nat.lt_or_ge (bget g 0 0) 7 with h2 | h2
      · have := hcol 1 (by omega) (by omega)
        omega
      · rcases Nat.lt_or_ge (bget g 0 0) 8 with h3 | h3
        · have := hcol 2 (by omega) (by omega)
          omega
        · rcases Nat.lt_or_ge (bget g 0 0) 9 with h4 | h4
          · have := hcol 3 (by omega) (by omega)
            omega
          · have h9 : bget g 0 0 = 9 := by omega
            have := hcol 4 (by omega) (by omega)
            omega

/-! Decidability of the predicates, for evaluation at concrete inputs. -/

instance (co : List (Nat × Nat)) : Decidable (coordsOK co) := by
  unfold coordsOK
  infer_instance

instance (co : List (Nat × Nat)) : Decidable (coversGrid co) := by
  unfold coversGrid
  infer_instance

instance (co : List (Nat × Nat)) (b : Board) (n : Nat) :
    Decidable (prefixFilled co b n) := by
  unfold prefixFilled
  infer_instance

instance (s : Sudoku) : Decidable (Sudoku.WF s) := by
  unfold Sudoku.WF
  infer_instance

instance (s : Sudoku) : Decidable (NoDupClues s) := by
  unfold NoDupClues
  infer_instance

instance (b : Board) (mask : Nat) (cells : List (Nat × Nat)) :
    Decidable (unitOK b mask cells) := by
  unfold unitOK
  infer_instance

instance (b : Board) (rows cols subgrids : List Nat) :
    Decidable (masksConsistent b rows cols subgrids) := by
  unfold masksConsistent
  infer_instance

instance (b : Board) : Decidable (WFBoard b) := by
  unfold WFBoard
  infer_instance

instance (rows cols subgrids : List Nat) : Decidable (WFMasks rows cols subgrids) := by
  unfold WFMasks
  infer_instance

instance (s : SolverState) : Decidable (Inv s) := by
  unfold Inv
  infer_instance

instance (g : Board) : Decidable (ValidGrid g) := by
  unfold ValidGrid
  infer_instance

/-! The claims. -/

/-- C3: for every mask state, cell (i, j) with i, j < 9 and digit num in
[1,9], `is_safe` returns true iff bit `num` is clear in `rows[i]`, in
`cols[j]` and in `subgrids[(i/3)*3 + j/3]` simultaneously (it is a pure
function, so it mutates nothing); and if bit `d` is set in the mask of row
`i`, `is_safe` returns false for `d` at every column of that row. -/
theorem C3_is_safe_spec :
    ∀ (rows cols subgrids : List Nat) (i j num : Nat),
      i < 9 → j < 9 → 1 ≤ num → num ≤ 9 →
      ((is_safe rows cols subgrids i j num = true ↔
        (rows.getD i 0).testBit num = false ∧ (cols.getD j 0).testBit num = false ∧
        (subgrids.getD ((i / 3) * 3 + j / 3) 0).testBit num = false) ∧
      (∀ d, 1 ≤ d → d ≤ 9 → (rows.getD i 0).testBit d = true →
        ∀ j', j' < 9 → is_safe rows cols subgrids i j' d = false)) := by
  intro rows cols subgrids i j num hi hj hn1 hn9
  refine ⟨is_safe_iff rows cols subgrids i j num, ?_⟩
  intro d hd1 hd9 htb j' hj'
  cases hsf : is_safe rows cols subgrids i j' d
  · rfl
  · exfalso
    have := ((is_safe_iff rows cols subgrids i j' d).mp hsf).1
    rw [this] at htb
    exact Bool.noConfusion htb

/-- Witness for C3 at a concrete mask state: bit 1 set in row 0. -/
theorem C3_is_safe_spec_witness :
    (is_safe [2, 0, 0, 0, 0, 0, 0, 0, 0] [0, 0, 0, 0, 0, 0, 0, 0, 0]
        [0, 0, 0, 0, 0, 0, 0, 0, 0] 0 0 1 = true ↔
      (([2, 0, 0, 0, 0, 0, 0, 0, 0] : List Nat).getD 0 0).testBit 1 = false ∧
      (([0, 0, 0, 0, 0, 0, 0, 0, 0] : List Nat).getD 0 0).testBit 1 = false ∧
      (([0, 0, 0, 0, 0, 0, 0, 0, 0] : List Nat).getD ((0 / 3) * 3 + 0 / 3) 0).testBit 1 =
        false) ∧
    (∀ d, 1 ≤ d → d ≤ 9 →
      (([2, 0, 0, 0, 0, 0, 0, 0, 0] : List Nat).getD 0 0).testBit d = true →
      ∀ j', j' < 9 → is_safe [2, 0, 0, 0, 0, 0, 0, 0, 0] [0, 0, 0, 0, 0, 0, 0, 0, 0]
        [0, 0, 0, 0, 0, 0, 0, 0, 0] 0 j' d = false) :=
  C3_is_safe_spec [2, 0, 0, 0, 0, 0, 0, 0, 0] [0, 0, 0, 0, 0, 0, 0, 0, 0]
    [0, 0, 0, 0, 0, 0, 0, 0, 0] 0 0 1 (by decide) (by decide) (by decide) (by decide)

/-- C2: for every puzzle and every cell order, after a search completes the
sum of the `tree_width_by_level` histogram equals `nodes_explored` exactly
(`is_tree_data_consistent` returns true), both for the single-solution entry
point and for the recursive solver in either mode (`find_all` true or
false). -/
theorem C2_tree_consistent :
    (∀ (sudoku : Sudoku) (strategy : SearchStrategy) (elapsed : Nat),
      ((find_one_solution_strategy sudoku strategy elapsed).2).is_tree_data_consistent = true) ∧
    (∀ (sudoku : Sudoku) (co : List (Nat × Nat)) (find_all : Bool),
      ((run_search sudoku co find_all).stats).is_tree_data_consistent = true) := by
  have general : ∀ (sudoku : Sudoku) (co : List (Nat × Nat)) (find_all : Bool),
      ((run_search sudoku co find_all).stats).is_tree_data_consistent = true := by
    intro sudoku co fa
    obtain ⟨hl, hs⟩ := solveRec_hist co fa 82 0 0 (initState sudoku) (by omega) (by omega)
      (by show (List.replicate 81 (0 : Nat)).length = 81; simp)
    unfold SolverStats.is_tree_data_consistent SolverStats.total_nodes_from_tree
    rw [beq_iff_eq]
    have h0 : (initState sudoku).stats.tree_width_by_level.sum = 0 := by
      show (List.replicate 81 (0 : Nat)).sum = 0
      simp
    have h0' : (initState sudoku).stats.nodes_explored = 0 := rfl
    rw [h0, h0'] at hs
    unfold run_search
    omega
  exact ⟨fun sudoku strategy elapsed => general sudoku (strategyCellOrder strategy) false,
    general⟩

/-- C10: after `find_one_solution_strategy` completes, `solutions_found` is 0
or 1, the returned `Option` is `some` iff `solutions_found = 1`,
`solutions_found ≤ leaves`, and `dead_end_leaves + solutions_found = leaves`
(the saturating subtraction never saturates). -/
theorem C10_stats_relations :
    ∀ (sudoku : Sudoku) (strategy : SearchStrategy) (elapsed : Nat),
      ((find_one_solution_strategy sudoku strategy elapsed).2).solutions_found ≤ 1 ∧
      (((find_one_solution_strategy sudoku strategy elapsed).1).isSome = true ↔
        ((find_one_solution_strategy sudoku strategy elapsed).2).solutions_found = 1) ∧
      ((find_one_solution_strategy sudoku strategy elapsed).2).solutions_found ≤
        ((find_one_solution_strategy sudoku strategy elapsed).2).leaves ∧
      ((find_one_solution_strategy sudoku strategy elapsed).2).dead_end_leaves +
          ((find_one_solution_strategy sudoku strategy elapsed).2).solutions_found =
        ((find_one_solution_strategy sudoku strategy elapsed).2).leaves := by
  intro sudoku strategy elapsed
  obtain ⟨new, hnew, hle⟩ := solveRec_sols (strategyCellOrder strategy) false 82 0 0
    (initState sudoku)
  have hsols : (run_search sudoku (strategyCellOrder strategy) false).solutions = new := hnew
  have hleaves : new.length ≤
      (run_search sudoku (strategyCellOrder strategy) false).stats.leaves := by
    have h0 : (initState sudoku).stats.leaves = 0 := rfl
    rw [h0] at hle
    unfold run_search
    omega
  have e1 : (find_one_solution_strategy sudoku strategy elapsed).2.solutions_found =
      (if ((run_search sudoku (strategyCellOrder strategy) false).solutions.head?).isSome
       then 1 else 0) := rfl
  have e2 : (find_one_solution_strategy sudoku strategy elapsed).2.leaves =
      (run_search sudoku (strategyCellOrder strategy) false).stats.leaves := rfl
  have e3 : (find_one_solution_strategy sudoku strategy elapsed).1 =
      (run_search sudoku (strategyCellOrder strategy) false).solutions.head? := rfl
  have e4 : (find_one_solution_strategy sudoku strategy elapsed).2.dead_end_leaves =
      (find_one_solution_strategy sudoku strategy elapsed).2.leaves -
        (find_one_solution_strategy sudoku strategy elapsed).2.solutions_found := rfl
  by_cases hopt : ((run_search sudoku (strategyCellOrder strategy) false).solutions.head?).isSome
    = true
  · have hne : new ≠ [] := by
      have := List.head?_isSome.mp hopt
      rw [hsols] at this
      exact this
    have hlen1 : 1 ≤ new.length := by
      rcases new with _ | ⟨x, xs⟩
      · exact absurd rfl hne
      · simp
    rw [e4, e1, e2, e3, hopt, if_pos rfl]
    refine ⟨by omega, by simp, by omega, by omega⟩
  · have hopt' : ((run_search sudoku (strategyCellOrder strategy) false).solutions.head?).isSome
        = false := by
      rcases h : ((run_search sudoku (strategyCellOrder strategy) false).solutions.head?).isSome
      · rfl
      · exact absurd h hopt
    rw [e4, e1, e2, e3, hopt', if_neg (by simp)]
    refine ⟨by omega, by simp, by omega, by omega⟩

/-- C9: for every cell order with at least 81 entries whose coordinates lie
in the grid, the recursive solver never indexes `cell_order` at a position
where Rust would panic, never indexes the width histogram at a depth of 81 or
more (the instrumentation flag `oob` stays false), and the final
`max_recursion_depth` is at most 80. -/
theorem C9_bounds :
    ∀ (sudoku : Sudoku) (co : List (Nat × Nat)) (find_all : Bool),
      81 ≤ co.length → (∀ c ∈ co, c.1 < 9 ∧ c.2 < 9) →
      (run_search sudoku co find_all).oob = false ∧
      (run_search sudoku co find_all).stats.max_recursion_depth ≤ 80 := by
  intro sudoku co fa hlen hco
  obtain ⟨h1, h2⟩ := solveRec_oob co fa hlen 82 0 0 (initState sudoku) (by omega) (by omega)
  have e1 : (initState sudoku).oob = false := rfl
  have e2 : (initState sudoku).stats.max_recursion_depth = 0 := rfl
  rw [e1] at h1
  rw [e2] at h2
  exact ⟨h1, by unfold run_search; omega⟩

/-- Witness for C9 at the solved grid and the default cell order. -/
theorem C9_bounds_witness :
    (run_search solvedSudoku defaultCO false).oob = false ∧
    (run_search solvedSudoku defaultCO false).stats.max_recursion_depth ≤ 80 :=
  C9_bounds solvedSudoku defaultCO false (by decide) (by decide)

/-- C5: in single-solution mode, when the recursive call made after placing
`num` returns with a non-empty solution vector, the enclosing loop iteration
returns that state unchanged and immediately: no further sibling digit is
tried, the placed digit is not cleared from the board or the masks, and the
backtrack counter is not incremented for that placement. -/
theorem C5_early_return :
    ∀ (co : List (Nat × Nat)) (fuel cur i j depth num : Nat) (rest : List Nat)
      (s : SolverState),
      is_safe s.rows s.cols s.subgrids i j num = true →
      (solveRec co false fuel (cur + 1) (depth + 1) (place i j num s)).solutions ≠ [] →
      tryLoop false (fun st => solveRec co false fuel (cur + 1) (depth + 1) st) i j
          (num :: rest) s =
        (solveRec co false fuel (cur + 1) (depth + 1) (place i j num s), true) := by
  intro co fuel cur i j depth num rest s hsafe hsols
  rw [tryLoop_cons, if_pos hsafe]
  show (if (!(solveRec co false fuel (cur + 1) (depth + 1)
        (place i j num s)).solutions.isEmpty && !false) = true
      then ((solveRec co false fuel (cur + 1) (depth + 1) (place i j num s)), true)
      else ((tryLoop false (fun st => solveRec co false fuel (cur + 1) (depth + 1) st) i j rest
        (unplace i j num (solveRec co false fuel (cur + 1) (depth + 1)
          (place i j num s)))).1, true)) =
    (solveRec co false fuel (cur + 1) (depth + 1) (place i j num s), true)
  rw [if_pos (by
    rw [Bool.not_false, Bool.and_true, Bool.not_eq_true']
    exact List.isEmpty_eq_false.mpr hsols)]

/-- Witness for C5: placing the last missing digit of an almost-complete
board makes the recursive call find a solution, and the loop returns it
directly. -/
theorem C5_early_return_witness :
    is_safe (initState almostSudoku).rows (initState almostSudoku).cols
        (initState almostSudoku).subgrids 0 0 1 = true ∧
    (solveRec defaultCO false 81 (0 + 1) (0 + 1)
        (place 0 0 1 (initState almostSudoku))).solutions ≠ [] ∧
    tryLoop false (fun st => solveRec defaultCO false 81 (0 + 1) (0 + 1) st) 0 0
        [1, 2, 3, 4, 5, 6, 7, 8, 9] (initState almostSudoku) =
      (solveRec defaultCO false 81 (0 + 1) (0 + 1) (place 0 0 1 (initState almostSudoku)),
        true) :=
  ⟨by decide, by decide,
    C5_early_return defaultCO 81 0 0 0 0 1 [2, 3, 4, 5, 6, 7, 8, 9]
      (initState almostSudoku) (by decide) (by decide)⟩

/-- C7 counterexample: the same puzzle searched twice with the same explicit
cell order yields two `SolverStats` values that are not equal, because
`search_duration` records the ambient wall-clock time (modelled as the
environment input of each invocation), which differs between the two runs.
This refutes the claim that all fields of the returned `SolverStats` are
equal between two invocations. -/
theorem C7_counterexample :
    ¬ ((find_one_solution_custom_cell_order cexSudoku defaultCO 0).2 =
       (find_one_solution_custom_cell_order cexSudoku defaultCO 1).2) := by
  intro h
  have := congrArg SolverStats.search_duration h
  rw [show (find_one_solution_custom_cell_order cexSudoku defaultCO 0).2.search_duration
      = 0 from rfl] at this
  rw [show (find_one_solution_custom_cell_order cexSudoku defaultCO 1).2.search_duration
      = 1 from rfl] at this
  exact Nat.noConfusion this

/-- C7 (amended): two invocations of the single-solution search with the same
puzzle and the same explicit cell order return identical Boards and identical
Statistics in every field except `search_duration`, which records wall-clock
time. -/
theorem C7_determinism :
    ∀ (sudoku : Sudoku) (cell_order : List (Nat × Nat)) (d1 d2 : Nat),
      (find_one_solution_custom_cell_order sudoku cell_order d1).1 =
        (find_one_solution_custom_cell_order sudoku cell_order d2).1 ∧
      (find_one_solution_custom_cell_order sudoku cell_order d1).2.solutions_found =
        (find_one_solution_custom_cell_order sudoku cell_order d2).2.solutions_found ∧
      (find_one_solution_custom_cell_order sudoku cell_order d1).2.max_recursion_depth =
        (find_one_solution_custom_cell_order sudoku cell_order d2).2.max_recursion_depth ∧
      (find_one_solution_custom_cell_order sudoku cell_order d1).2.nodes_explored =
        (find_one_solution_custom_cell_order sudoku cell_order d2).2.nodes_explored ∧
      (find_one_solution_custom_cell_order sudoku cell_order d1).2.backtracks =
        (find_one_solution_custom_cell_order sudoku cell_order d2).2.backtracks ∧
      (find_one_solution_custom_cell_order sudoku cell_order d1).2.leaves =
        (find_one_solution_custom_cell_order sudoku cell_order d2).2.leaves ∧
      (find_one_solution_custom_cell_order sudoku cell_order d1).2.tree_width_by_level =
        (find_one_solution_custom_cell_order sudoku cell_order d2).2.tree_width_by_level :=
  fun _ _ _ _ => ⟨rfl, rfl, rfl, rfl, rfl, rfl, rfl⟩

/-- C8: a puzzle whose 81 cells are all given and satisfy the uniqueness
constraints is solved with zero decision nodes under the default ordering
(all pre-filled cells are skipped without being counted), so
`nodes_explored ≤ 81`. -/
theorem C8_solved_board_nodes :
    ∀ (sudoku : Sudoku) (elapsed : Nat), Sudoku.WF sudoku → sudoku.is_solved = true →
      (find_one_solution sudoku elapsed).2.nodes_explored = 0 ∧
      (find_one_solution sudoku elapsed).2.nodes_explored ≤ 81 := by
  intro sudoku elapsed hWF hsolved
  have hpf : prefixFilled defaultCO (initState sudoku).board 81 := by
    intro k hk
    obtain ⟨hc1, hc2⟩ := coordsOK_getD (show coordsOK defaultCO by decide) k
    obtain ⟨v, hv, hv1, hv9⟩ := solved_clue hWF hsolved _ hc1 _ hc2
    have : bget (initState sudoku).board (defaultCO.getD k (0, 0)).1
        (defaultCO.getD k (0, 0)).2 = v := by
      show bget (init_from_sudoku sudoku).board _ _ = v
      exact (init_bget_iff_clue hWF hc1 hc2 hv1).mpr hv
    rw [this]
    omega
  have hrun := run_search_filled sudoku defaultCO false hpf
  have e1 : (find_one_solution sudoku elapsed).2.nodes_explored =
      (run_search sudoku defaultCO false).stats.nodes_explored := rfl
  rw [e1, hrun]
  refine ⟨rfl, ?_⟩
  rw [show (pushSolution (initState sudoku)).stats.nodes_explored = 0 from rfl]
  omega

/-- Witness for C8 at the concrete solved grid. -/
theorem C8_solved_board_nodes_witness :
    (find_one_solution solvedSudoku 0).2.nodes_explored = 0 ∧
    (find_one_solution solvedSudoku 0).2.nodes_explored ≤ 81 :=
  C8_solved_board_nodes solvedSudoku 0 (by decide) (by decide)

/-- C4: for every puzzle with duplicate-free clues, the mask/board agreement
holds at every state reachable by the search: it holds after initialization,
it is preserved by every placement step and every backtrack step (the two
mutations the search performs), hence it holds through the whole recursion;
and the agreement says precisely that bit `d` of a unit's mask is set iff
exactly one filled cell of that unit holds digit `d`. -/
theorem C4_mask_invariant :
    (∀ sudoku : Sudoku, Sudoku.WF sudoku → NoDupClues sudoku → Inv (initState sudoku)) ∧
    (∀ (s : SolverState) (i j num : Nat), i < 9 → j < 9 → 1 ≤ num → num ≤ 9 →
      bget s.board i j = 0 → is_safe s.rows s.cols s.subgrids i j num = true →
      Inv s → Inv (place i j num s)) ∧
    (∀ (s : SolverState) (i j num : Nat), i < 9 → j < 9 → 1 ≤ num → num ≤ 9 →
      bget s.board i j = num → Inv s → Inv (unplace i j num s)) ∧
    (∀ (co : List (Nat × Nat)) (find_all : Bool) (fuel cell_idx depth : Nat)
      (s : SolverState), coordsOK co → coversGrid co → Inv s →
      prefixFilled co s.board cell_idx → cell_idx ≤ 81 →
      Inv (solveRec co find_all fuel cell_idx depth s)) ∧
    (∀ s : SolverState, Inv s → ∀ d, 1 ≤ d → d ≤ 9 →
      (∀ i, i < 9 → ((s.rows.getD i 0).testBit d = true ↔
        ∃! jj, jj < 9 ∧ bget s.board i jj = d)) ∧
      (∀ j, j < 9 → ((s.cols.getD j 0).testBit d = true ↔
        ∃! ii, ii < 9 ∧ bget s.board ii j = d)) ∧
      (∀ k, k < 9 → ((s.subgrids.getD k 0).testBit d = true ↔
        ∃! c : Nat × Nat, c ∈ boxCells k ∧ bget s.board c.1 c.2 = d))) := by
  refine ⟨fun sudoku hWF hND => Inv_initState sudoku hWF hND,
    fun s i j num hi hj h1 h9 hz hsafe hinv => Inv_place hi hj h1 h9 hz hsafe hinv,
    fun s i j num hi hj h1 h9 hval hinv => Inv_unplace hi hj h1 h9 hval hinv,
    fun co fa fuel ci dep s hco hcov hinv hpf h81 =>
      (solveRec_main co fa hco hcov fuel ci dep s hinv hpf h81).2.1,
    ?_⟩
  intro s hinv d hd1 hd9
  obtain ⟨hwb, hwm, hr, hc, hb⟩ := hinv
  refine ⟨?_, ?_, ?_⟩
  · intro i hi
    obtain ⟨hiff, huniq⟩ := hr i hi d (by omega) hd1
    rw [hiff]
    constructor
    · rintro ⟨c, hcm, hv⟩
      obtain ⟨hc1, hc2⟩ := mem_rowCells.mp hcm
      rw [hc1] at hv
      refine ⟨c.2, ⟨hc2, hv⟩, ?_⟩
      rintro y ⟨hy9, hyv⟩
      have := huniq (i, y) (mem_rowCells.mpr ⟨rfl, hy9⟩) (i, c.2)
        (mem_rowCells.mpr ⟨rfl, hc2⟩) hyv hv
      rw [Prod.mk.injEq] at this
      exact this.2
    · rintro ⟨jj, ⟨hj9, hjv⟩, _⟩
      exact ⟨(i, jj), mem_rowCells.mpr ⟨rfl, hj9⟩, hjv⟩
  · intro j hj
    obtain ⟨hiff, huniq⟩ := hc j hj d (by omega) hd1
    rw [hiff]
    constructor
    · rintro ⟨c, hcm, hv⟩
      obtain ⟨hc1, hc2⟩ := mem_colCells.mp hcm
      rw [hc1] at hv
      refine ⟨c.1, ⟨hc2, hv⟩, ?_⟩
      rintro y ⟨hy9, hyv⟩
      have := huniq (y, j) (mem_colCells.mpr ⟨rfl, hy9⟩) (c.1, j)
        (mem_colCells.mpr ⟨rfl, hc2⟩) hyv hv
      rw [Prod.mk.injEq] at this
      exact this.1
    · rintro ⟨ii, ⟨hi9, hiv⟩, _⟩
      exact ⟨(ii, j), mem_colCells.mpr ⟨rfl, hi9⟩, hiv⟩
  · intro k hk
    obtain ⟨hiff, huniq⟩ := hb k hk d (by omega) hd1
    rw [hiff]
    constructor
    · rintro ⟨c, hcm, hv⟩
      refine ⟨c, ⟨hcm, hv⟩, ?_⟩
      rintro y ⟨hym, hyv⟩
      exact huniq y hym c hcm hyv hv
    · rintro ⟨c, ⟨hcm, hv⟩, _⟩
      exact ⟨c, hcm, hv⟩

/-- Witness for C4 at concrete states: the solved grid, and the first digit
placed into the almost-complete grid. -/
theorem C4_mask_invariant_witness :
    Inv (initState solvedSudoku) ∧
    Inv (place 0 0 1 (initState almostSudoku)) ∧
    Inv (unplace 0 0 1 (place 0 0 1 (initState almostSudoku))) ∧
    Inv (solveRec defaultCO false 82 0 0 (initState solvedSudoku)) ∧
    (((initState solvedSudoku).rows.getD 0 0).testBit 1 = true ↔
      ∃! jj, jj < 9 ∧ bget (initState solvedSudoku).board 0 jj = 1) :=
  ⟨C4_mask_invariant.1 solvedSudoku (by decide) (by decide),
   C4_mask_invariant.2.1 (initState almostSudoku) 0 0 1 (by decide) (by decide) (by decide)
     (by decide) (by decide) (by decide) (by decide),
   C4_mask_invariant.2.2.1 (place 0 0 1 (initState almostSudoku)) 0 0 1 (by decide)
     (by decide) (by decide) (by decide) (by decide) (by decide),
   C4_mask_invariant.2.2.2.1 defaultCO false 82 0 0 (initState solvedSudoku) (by decide)
     (by decide) (by decide) (by decide) (by decide),
   (C4_mask_invariant.2.2.2.2 (initState solvedSudoku) (by decide) 1 (by decide)
     (by decide)).1 0 (by decide)⟩

/-- C1 counterexample: a fully given puzzle whose first row holds the digit 1
twice is appended to the Solution Set unchecked, so a Board violating the
row/column/box uniqueness invariant (is_solved is false) is appended. This
refutes the claim as stated for arbitrary puzzles. -/
theorem C1_counterexample :
    (run_search cexSudoku defaultCO false).solutions = [cexSudoku] ∧
    cexSudoku.is_solved = false :=
  ⟨by decide, by decide⟩

/-- C1 (amended): for every puzzle whose clues are duplicate-free and every
cell order that stays in the grid and covers all 81 cells, every Board
appended to the Solution Set satisfies `is_solved` (in particular it is
completely filled); and for every puzzle with zero given clues the
single-solution search returns a solution. -/
theorem C1_solutions_solved :
    (∀ (sudoku : Sudoku) (co : List (Nat × Nat)) (find_all : Bool),
      Sudoku.WF sudoku → NoDupClues sudoku → coordsOK co → coversGrid co →
      ∀ sol ∈ (run_search sudoku co find_all).solutions, sol.is_solved = true) ∧
    (∀ (sudoku : Sudoku) (elapsed : Nat),
      (∀ a, a < 9 → ∀ b, b < 9 → sudoku.get_solved_value a b = none) →
      ((find_one_solution sudoku elapsed).1).isSome = true) := by
  constructor
  · intro sudoku co fa hWF hND hco hcov sol hsol
    have hsound := (solveRec_main co fa hco hcov 82 0 0 (initState sudoku)
      (Inv_initState sudoku hWF hND) (fun k hk => absurd hk (Nat.not_lt_zero k))
      (by omega)).2.2
    rcases hsound sol hsol with h | ⟨g, h1, h2, h3, h4⟩
    · exact absurd h (List.not_mem_nil sol)
    · rw [h1]
      exact h4
  · intro sudoku elapsed h
    show ((run_search sudoku (strategyCellOrder SearchStrategy.Default)
      false).solutions.head?).isSome = true
    unfold run_search
    rw [initState_zeroClues sudoku h]
    decide

/-- Witness for C1 at the solved grid (soundness part) and the empty puzzle
(zero-clue part). -/
theorem C1_solutions_solved_witness :
    (∀ sol ∈ (run_search solvedSudoku defaultCO false).solutions, sol.is_solved = true) ∧
    ((find_one_solution Sudoku.new 0).1).isSome = true :=
  ⟨C1_solutions_solved.1 solvedSudoku defaultCO false (by decide) (by decide) (by decide)
    (by decide),
   C1_solutions_solved.2 Sudoku.new 0 (by decide)⟩

/-- C6 counterexample: `cexSudoku` is fully given with a duplicated digit, so
no completion consistent with its clues exists; yet the search pushes the
(invalid) full board and `find_one_solution` returns it with
`solutions_found = 1`, not an empty Solution Set. This refutes the claim as
stated for arbitrary puzzles. -/
theorem C6_counterexample :
    (¬ ∃ g : Board, IsCompletion cexSudoku g) ∧
    (find_one_solution cexSudoku 0).1 ≠ none ∧
    (find_one_solution cexSudoku 0).2.solutions_found = 1 := by
  refine ⟨?_, by decide, by decide⟩
  rintro ⟨g, ⟨hrange, huniq⟩, hagree⟩
  have h1 : bget g 0 0 = 1 := hagree 0 (by omega) 0 (by omega) 1 (by decide)
  have h2 : bget g 0 1 = 1 := hagree 0 (by omega) 1 (by omega) 1 (by decide)
  have heq := (huniq 1 (by omega) (by omega)).1 0 (by omega)
    (0, 0) (mem_rowCells.mpr ⟨rfl, by omega⟩)
    (0, 1) (mem_rowCells.mpr ⟨rfl, by omega⟩) h1 h2
  rw [Prod.mk.injEq] at heq
  omega

/-- C6 (amended): for every puzzle whose clues are duplicate-free, searched
with a strategy whose cell order stays in the grid and covers all 81 cells,
if no completion consistent with the clues exists then the search returns
normally with an empty Solution Set: `find_one_solution_strategy` returns
`none` and `solutions_found = 0`. -/
theorem C6_unsat_empty :
    ∀ (sudoku : Sudoku) (strategy : SearchStrategy) (elapsed : Nat),
      Sudoku.WF sudoku → NoDupClues sudoku →
      coordsOK (strategyCellOrder strategy) → coversGrid (strategyCellOrder strategy) →
      (¬ ∃ g : Board, IsCompletion sudoku g) →
      (find_one_solution_strategy sudoku strategy elapsed).1 = none ∧
      (find_one_solution_strategy sudoku strategy elapsed).2.solutions_found = 0 := by
  intro sudoku strategy elapsed hWF hND hco hcov hnc
  have hsound := (solveRec_main (strategyCellOrder strategy) false hco hcov 82 0 0
    (initState sudoku) (Inv_initState sudoku hWF hND)
    (fun k hk => absurd hk (Nat.not_lt_zero k)) (by omega)).2.2
  have hempty : (run_search sudoku (strategyCellOrder strategy) false).solutions = [] := by
    rcases hsols : (run_search sudoku (strategyCellOrder strategy) false).solutions
      with _ | ⟨sol, rest⟩
    · rfl
    · exfalso
      have hmem : sol ∈ (run_search sudoku (strategyCellOrder strategy) false).solutions := by
        rw [hsols]
        exact List.mem_cons_self _ _
      rcases hsound sol hmem with h | ⟨g, h1, h2, h3, h4⟩
      · exact absurd h (List.not_mem_nil sol)
      · refine hnc ⟨g, h2, ?_⟩
        intro a ha b hb v hv
        have hval := clue_range hWF ha hb hv
        have hbg : bget (initState sudoku).board a b = v := by
          show bget (init_from_sudoku sudoku).board a b = v
          exact (init_bget_iff_clue hWF ha hb hval.1).mpr hv
        rw [← hbg]
        exact h3 a b (by rw [hbg]; omega)
  constructor
  · show ((run_search sudoku (strategyCellOrder strategy) false).solutions.head?) = none
    rw [hempty]
    rfl
  · show (if ((run_search sudoku (strategyCellOrder strategy)
        false).solutions.head?).isSome then 1 else 0) = 0
    rw [hempty]
    rfl

/-- Witness for C6 at a duplicate-free unsolvable puzzle (the empty cell
(0,0) has all nine digits among its row, column and box clues). -/
theorem C6_unsat_empty_witness :
    (find_one_solution_strategy unsatSudoku SearchStrategy.Default 0).1 = none ∧
    (find_one_solution_strategy unsatSudoku SearchStrategy.Default 0).2.solutions_found = 0 :=
  C6_unsat_empty unsatSudoku SearchStrategy.Default 0 (by decide) (by decide) (by decide)
    (by decide) unsat_no_completion

end SudokuTool
